import Mathlib

/-!
# `static/js/main.js`: click-to-select handler

A shallow embedding of `yolo_flask_app/static/js/main.js`.

* ECMAScript Numbers are modelled as `NaN`, the two infinities and the finite binary64 values,
  the latter as rationals; every arithmetic result is rounded with IEEE 754 roundTiesToEven.
* The DOM is modelled by the element properties the script reads.
* `fetch`, `response.json()` and the promise chain are modelled by the trace of effects a
  listener performs together with the settlement of the last promise of the chain.
* A click is delivered to the listeners registered on its target and on the elements that
  contain the target.
-/

namespace MainJs

/-! ## ECMAScript Number values -/

/-- Number of binary digits of `n`, by halving; `fuel` bounds the number of steps. -/
def bitLenAux : ℕ → ℕ → ℕ
  | 0, _ => 0
  | fuel + 1, n => if n = 0 then 0 else bitLenAux fuel (n / 2) + 1

/-- Number of binary digits of `n` (`0` for `0`). -/
def bitLen (n : ℕ) : ℕ := bitLenAux n n

/-- Binary exponent of a nonzero rational: the integer `e` with `2 ^ e ≤ |x| < 2 ^ (e + 1)`. -/
def ilog2 (x : ℚ) : ℤ :=
  let k : ℤ := (bitLen x.num.natAbs : ℤ) - (bitLen x.den : ℤ)
  if (2 : ℚ) ^ k ≤ |x| then k else k - 1

/-- Nearest integer, ties to the even one. -/
def rne (y : ℚ) : ℤ :=
  let f := ⌊y⌋
  let r := y - f
  if r < 1 / 2 then f else if 1 / 2 < r then f + 1 else if f % 2 = 0 then f else f + 1

/-- Spacing of the binary64 grid around `x`: 53 significant bits, exponent at least `-1022`. -/
def ulp (x : ℚ) : ℚ := (2 : ℚ) ^ (max (ilog2 x) (-1022) - 52)

/-- IEEE 754 roundTiesToEven of a rational to the binary64 grid, exponent unbounded above. -/
def rnd (x : ℚ) : ℚ := ulp x * rne (x / ulp x)

/-- An ECMAScript Number. The two zeros are identified: the script divides only by
`clientWidth` and `clientHeight`, which are never `-0`, and `JSON.stringify` prints both
zeros as `0`. -/
inductive Num where
  | nan
  | posInf
  | negInf
  | fin (q : ℚ)
  deriving DecidableEq, Repr

/-- The Number value for a real: binary64 roundTiesToEven with overflow to the infinities. -/
def roundToDouble (x : ℚ) : Num :=
  let r := rnd x
  if (2 : ℚ) ^ (1024 : ℕ) ≤ r then Num.posInf
  else if r ≤ -(2 : ℚ) ^ (1024 : ℕ) then Num.negInf
  else Num.fin r

/-- A Number that, when it is finite, is a point of the binary64 grid below `2 ^ 1024`. -/
def IsDouble (v : Num) : Prop :=
  ∀ q : ℚ, v = Num.fin q → rnd q = q ∧ |q| < (2 : ℚ) ^ (1024 : ℕ)

/-- Infinity with the sign of `a`; `NaN` when `a` is zero. -/
def infWithSign (a : ℚ) : Num :=
  if a = 0 then Num.nan else if 0 < a then Num.posInf else Num.negInf

/-- `Number::subtract`, the `-` operator on Numbers. -/
def Num.sub : Num → Num → Num
  | .nan, _ => .nan
  | _, .nan => .nan
  | .fin a, .fin b => roundToDouble (a - b)
  | .fin _, .posInf => .negInf
  | .fin _, .negInf => .posInf
  | .posInf, .fin _ => .posInf
  | .negInf, .fin _ => .negInf
  | .posInf, .negInf => .posInf
  | .negInf, .posInf => .negInf
  | .posInf, .posInf => .nan
  | .negInf, .negInf => .nan

/-- `Number::multiply`, the `*` operator on Numbers. -/
def Num.mul : Num → Num → Num
  | .nan, _ => .nan
  | _, .nan => .nan
  | .fin a, .fin b => roundToDouble (a * b)
  | .fin a, .posInf => infWithSign a
  | .fin a, .negInf => infWithSign (-a)
  | .posInf, .fin b => infWithSign b
  | .negInf, .fin b => infWithSign (-b)
  | .posInf, .posInf => .posInf
  | .posInf, .negInf => .negInf
  | .negInf, .posInf => .negInf
  | .negInf, .negInf => .posInf

/-- `Number::divide`, the `/` operator on Numbers; a zero divisor is `+0`. -/
def Num.div : Num → Num → Num
  | .nan, _ => .nan
  | _, .nan => .nan
  | .fin a, .fin b => if b = 0 then infWithSign a else roundToDouble (a / b)
  | .fin _, .posInf => .fin 0
  | .fin _, .negInf => .fin 0
  | .posInf, .fin b => if 0 ≤ b then .posInf else .negInf
  | .negInf, .fin b => if 0 ≤ b then .negInf else .posInf
  | .posInf, .posInf => .nan
  | .posInf, .negInf => .nan
  | .negInf, .posInf => .nan
  | .negInf, .negInf => .nan

/-- `Math.round`: the closest integral Number, the one nearer `+∞` on a tie; `NaN` and the
infinities are returned unchanged. -/
def Math_round : Num → Num
  | .fin q => .fin (⌊q + 1 / 2⌋ : ℤ)
  | v => v

/-- The comparison `a <= b` on Numbers: false when an operand is `NaN`. -/
def Num.le : Num → Num → Prop
  | .nan, _ => False
  | _, .nan => False
  | .fin a, .fin b => a ≤ b
  | .negInf, _ => True
  | _, .posInf => True
  | .posInf, _ => False
  | .fin _, .negInf => False

instance (a b : Num) : Decidable (Num.le a b) := by
  cases a <;> cases b <;> simp only [Num.le] <;> infer_instance

/-! ## `ToNumber` on the values the script reads -/

/-- `StrWhiteSpaceChar`: the white space and line terminator code points. -/
def isStrWhiteSpaceChar (c : Char) : Bool :=
  let n := c.toNat
  n = 0x09 || n = 0x0A || n = 0x0B || n = 0x0C || n = 0x0D || n = 0x20 || n = 0xA0
    || n = 0x1680 || (0x2000 ≤ n && n ≤ 0x200A) || n = 0x2028 || n = 0x2029 || n = 0x202F
    || n = 0x205F || n = 0x3000 || n = 0xFEFF

/-- The value of a digit in the given radix (2, 8, 10 or 16). -/
def digitValue (radix : ℕ) (c : Char) : Option ℕ :=
  let n := c.toNat
  let v : Option ℕ :=
    if 48 ≤ n ∧ n ≤ 57 then some (n - 48)
    else if 97 ≤ n ∧ n ≤ 102 then some (n - 87)
    else if 65 ≤ n ∧ n ≤ 70 then some (n - 55)
    else none
  v.bind fun d => if d < radix then some d else none

/-- The value of a possibly empty run of digits, most significant first, continuing from
`acc`; `none` when a character is not a digit of the radix. -/
def digitsValue (radix : ℕ) : List Char → ℕ → Option ℕ
  | [], acc => some acc
  | c :: cs, acc => (digitValue radix c).bind fun d => digitsValue radix cs (radix * acc + d)

/-- `SignedInteger` of an `ExponentPart`. -/
def signedInteger (cs : List Char) : Option ℤ :=
  match cs with
  | [] => none
  | '+' :: ds => if ds = [] then none else (digitsValue 10 ds 0).map fun n => (n : ℤ)
  | '-' :: ds => if ds = [] then none else (digitsValue 10 ds 0).map fun n => -(n : ℤ)
  | ds => (digitsValue 10 ds 0).map fun n => (n : ℤ)

/-- The mathematical value of a `StrUnsignedDecimalLiteral` other than `Infinity`. -/
def unsignedDecimalValue (cs : List Char) : Option ℚ :=
  let mant := cs.takeWhile fun c => c != 'e' && c != 'E'
  let rest := cs.dropWhile fun c => c != 'e' && c != 'E'
  let intPart := mant.takeWhile fun c => c != '.'
  let afterInt := mant.dropWhile fun c => c != '.'
  let fracPart := afterInt.drop 1
  let exponent : Option ℤ :=
    match rest with
    | [] => some 0
    | _ :: es => signedInteger es
  if intPart = [] ∧ fracPart = [] then none
  else
    (digitsValue 10 (intPart ++ fracPart) 0).bind fun m =>
      exponent.map fun e => (m : ℚ) * (10 : ℚ) ^ (e - (fracPart.length : ℤ))

/-- `StrDecimalLiteral`: an optionally signed decimal literal or `Infinity`. -/
def strDecimalLiteral (cs : List Char) : Num :=
  let signed (neg : Bool) (ds : List Char) : Num :=
    if ds = "Infinity".toList then (if neg then Num.negInf else Num.posInf)
    else
      match unsignedDecimalValue ds with
      | some v => roundToDouble (if neg then -v else v)
      | none => Num.nan
  match cs with
  | '+' :: ds => signed false ds
  | '-' :: ds => signed true ds
  | ds => signed false ds

/-- `NonDecimalIntegerLiteral`: `0b`, `0o` and `0x` literals, which take no sign. -/
def nonDecimalIntegerLiteral (cs : List Char) : Option Num :=
  let lit (radix : ℕ) (ds : List Char) : Option Num :=
    if ds = [] then some Num.nan
    else
      match digitsValue radix ds 0 with
      | some n => some (roundToDouble n)
      | none => some Num.nan
  match cs with
  | '0' :: 'b' :: ds => lit 2 ds
  | '0' :: 'B' :: ds => lit 2 ds
  | '0' :: 'o' :: ds => lit 8 ds
  | '0' :: 'O' :: ds => lit 8 ds
  | '0' :: 'x' :: ds => lit 16 ds
  | '0' :: 'X' :: ds => lit 16 ds
  | _ => none

/-- `StringToNumber`: white space is trimmed, the empty string is `+0`, a string that is
not a `StringNumericLiteral` is `NaN`. -/
def StringToNumber (s : String) : Num :=
  let cs := ((s.toList.dropWhile isStrWhiteSpaceChar).reverse.dropWhile
    isStrWhiteSpaceChar).reverse
  if cs = [] then Num.fin 0
  else
    match nonDecimalIntegerLiteral cs with
    | some v => v
    | none => strDecimalLiteral cs

/-- `ToNumber` on the value of a `dataset` property: `undefined` when the attribute is
absent, otherwise the attribute's string. -/
def ToNumber : Option String → Num
  | none => Num.nan
  | some s => StringToNumber s

/-! ## `Number::toString` and `JSON.stringify` -/

/-- Number of decimal digits of `n`, by division; `fuel` bounds the number of steps. -/
def decLenAux : ℕ → ℕ → ℕ
  | 0, _ => 0
  | fuel + 1, n => if n = 0 then 0 else decLenAux fuel (n / 10) + 1

/-- Decimal exponent of a nonzero rational: the integer `e` with `10 ^ e ≤ |x| < 10 ^ (e + 1)`. -/
def ilog10 (x : ℚ) : ℤ :=
  let k : ℤ := (decLenAux x.num.natAbs x.num.natAbs : ℤ) - (decLenAux x.den x.den : ℤ)
  if (10 : ℚ) ^ k ≤ |x| then k else k - 1

/-- The value `s × 10 ^ (n - k)` of a candidate `(n, s)` with `k` digits. -/
def decimalValue (k : ℕ) (c : ℤ × ℕ) : ℚ := (c.2 : ℚ) * (10 : ℚ) ^ (c.1 - (k : ℤ))

/-- The `k`-digit decimals next to `x > 0`, as pairs `(n, s)` with `10 ^ (k - 1) ≤ s < 10 ^ k`. -/
def digitCandidates (x : ℚ) (k : ℕ) : List (ℤ × ℕ) :=
  let n := ilog10 x + 1
  let lo := ⌊x * (10 : ℚ) ^ ((k : ℤ) - n)⌋.toNat
  [(n, lo), if lo + 1 < 10 ^ k then (n, lo + 1) else (n + 1, 10 ^ (k - 1))]

/-- Step 5 of `Number::toString`: integers `n`, `k`, `s` with `k` as small as possible such
that `s × 10 ^ (n - k)` has `k` digits and its Number value is `x`; of two such `s` the one
whose decimal is closer to `x`. The search starts at `k` digits and tries `fuel` lengths. -/
def shortestDigits (x : ℚ) : ℕ → ℕ → ℤ × ℕ × ℕ
  | 0, k => (ilog10 x + 1, k, ⌊x * (10 : ℚ) ^ ((k : ℤ) - (ilog10 x + 1))⌋.toNat)
  | fuel + 1, k =>
    match (digitCandidates x k).filter fun c => roundToDouble (decimalValue k c) = Num.fin x with
    | [] => shortestDigits x fuel (k + 1)
    | [c] => (c.1, k, c.2)
    | c :: d :: _ =>
      if |decimalValue k d - x| < |decimalValue k c - x| then (d.1, k, d.2) else (c.1, k, c.2)

/-- `Number::toString` with radix 10 on a finite Number. -/
def Number_toString (q : ℚ) : String :=
  if q = 0 then "0"
  else
    let nks := shortestDigits |q| 17 1
    let n : ℤ := nks.1
    let k : ℕ := nks.2.1
    let ds : List Char := Nat.toDigits 10 nks.2.2
    let text : List Char :=
      if (k : ℤ) ≤ n ∧ n ≤ 21 then ds ++ List.replicate (n - k).toNat '0'
      else if 0 < n ∧ n ≤ 21 then ds.take n.toNat ++ '.' :: ds.drop n.toNat
      else if -6 < n ∧ n ≤ 0 then '0' :: '.' :: (List.replicate (-n).toNat '0' ++ ds)
      else
        let es : List Char := (if n - 1 < 0 then '-' else '+') :: Nat.toDigits 10 (n - 1).natAbs
        match ds with
        | [] => []
        | d :: rest => if rest = [] then d :: 'e' :: es else d :: '.' :: (rest ++ 'e' :: es)
    (if q < 0 then "-" else "") ++ String.mk text

/-- `SerializeJSONProperty` on a Number: its string when it is finite, otherwise `null`. -/
def SerializeJSONProperty : Num → String
  | .fin q => Number_toString q
  | _ => "null"

/-- The text of `JSON.stringify(\x7b x: videoX, y: videoY \x7d)`. -/
def JSON_stringify (x y : Num) : String :=
  "\x7b\"x\":" ++ SerializeJSONProperty x ++ ",\"y\":" ++ SerializeJSONProperty y ++ "\x7d"

/-! ## The DOM, `fetch` and promises -/

/-- The `DOMRect` fields the script reads; layout coordinates are finite. -/
structure DOMRect where
  left : ℚ
  top : ℚ

/-- An element, by the properties the script reads from it. -/
structure Element where
  /-- The `id` attribute. -/
  id : String
  /-- The value of `getBoundingClientRect()`. -/
  rect : DOMRect
  /-- `clientWidth`, a `long` that is never negative. -/
  clientWidth : ℕ
  /-- `clientHeight`, a `long` that is never negative. -/
  clientHeight : ℕ
  /-- `dataset`: the `data-*` attributes under their camel-cased names. -/
  dataset : List (String × String)
  /-- The ids of the elements that contain this one, innermost first. -/
  ancestors : List String := []
  clientWidth_lt : clientWidth < 2 ^ 31 := by decide
  clientHeight_lt : clientHeight < 2 ^ 31 := by decide

/-- The document, by its elements in tree order. -/
structure Document where
  elements : List Element

/-- `document.getElementById`: the first element with the id, `null` when there is none. -/
def Document.getElementById (document : Document) (id : String) : Option Element :=
  document.elements.find? fun el => el.id = id

/-- The mouse event fields the script reads; both are finite. -/
structure MouseEvent where
  clientX : ℚ
  clientY : ℚ

/-- A value thrown or used as a rejection reason. -/
structure JsError where
  message : String
  deriving DecidableEq, Repr

/-- A parsed JSON value, as `response.json()` yields. -/
inductive Json where
  | null
  | bool (b : Bool)
  | number (q : ℚ)
  | string (s : String)
  | array (items : List Json)
  | object (members : List (String × Json))

/-- The arguments of one `fetch` call. -/
structure Request where
  url : String
  method : String
  headers : List (String × String)
  body : Option String
  deriving DecidableEq, Repr

/-- How a promise settles. -/
inductive Settled (α : Type) where
  | fulfilled (value : α)
  | rejected (reason : JsError)

/-- A response, by what `response.json()` settles to. -/
structure Response where
  json : Settled Json

/-- What a listener does that can be observed from outside. -/
inductive Effect where
  | fetch (request : Request)
  | consoleLog (label : String) (data : Json)
  | consoleError (label : String) (error : JsError)

/-- A promise chain run to its end: the effects performed on the way, in order, and the
settlement of the last promise. -/
abbrev Async (α : Type) := List Effect × Settled α

/-- `promise.then(onFulfilled)`. -/
def Async.andThen {α β : Type} (p : Async α) (onFulfilled : α → Async β) : Async β :=
  match p with
  | (effects, .fulfilled value) => (effects ++ (onFulfilled value).1, (onFulfilled value).2)
  | (effects, .rejected reason) => (effects, .rejected reason)

/-- `promise.catch(onRejected)`. -/
def Async.catch {α : Type} (p : Async α) (onRejected : JsError → Async α) : Async α :=
  match p with
  | (effects, .fulfilled value) => (effects, .fulfilled value)
  | (effects, .rejected reason) => (effects ++ (onRejected reason).1, (onRejected reason).2)

/-- `fetch(url, options)`: the request is issued and the promise settles as the network
decides. -/
def fetch (network : Request → Settled Response) (request : Request) : Async Response :=
  ([Effect.fetch request], network request)

/-- `console.log(label, data)`. -/
def console_log (label : String) (data : Json) : Async Unit :=
  ([Effect.consoleLog label data], .fulfilled ())

/-- `console.error(label, error)`. -/
def console_error (label : String) (error : JsError) : Async Unit :=
  ([Effect.consoleError label error], .fulfilled ())

/-- The requests among a list of effects. -/
def requests : List Effect → List Request
  | [] => []
  | .fetch request :: rest => request :: requests rest
  | _ :: rest => requests rest

/-! ## The script -/

/-- `clickX = e.clientX - rect.left`. -/
def clickX (videoStream : Element) (e : MouseEvent) : Num :=
  Num.sub (.fin e.clientX) (.fin videoStream.rect.left)

/-- `clickY = e.clientY - rect.top`. -/
def clickY (videoStream : Element) (e : MouseEvent) : Num :=
  Num.sub (.fin e.clientY) (.fin videoStream.rect.top)

/-- `displayWidth = videoStream.clientWidth`. -/
def displayWidth (videoStream : Element) : Num := .fin videoStream.clientWidth

/-- `displayHeight = videoStream.clientHeight`. -/
def displayHeight (videoStream : Element) : Num := .fin videoStream.clientHeight

/-- `nativeWidth = videoStream.dataset.videoWidth`: a string, or `undefined`. -/
def nativeWidth (videoStream : Element) : Option String :=
  videoStream.dataset.lookup "videoWidth"

/-- `nativeHeight = videoStream.dataset.videoHeight`: a string, or `undefined`. -/
def nativeHeight (videoStream : Element) : Option String :=
  videoStream.dataset.lookup "videoHeight"

/-- `scaleX = nativeWidth / displayWidth`. -/
def scaleX (videoStream : Element) : Num :=
  Num.div (ToNumber (nativeWidth videoStream)) (displayWidth videoStream)

/-- `scaleY = nativeHeight / displayHeight`. -/
def scaleY (videoStream : Element) : Num :=
  Num.div (ToNumber (nativeHeight videoStream)) (displayHeight videoStream)

/-- `videoX = Math.round(clickX * scaleX)`. -/
def videoX (videoStream : Element) (e : MouseEvent) : Num :=
  Math_round (Num.mul (clickX videoStream e) (scaleX videoStream))

/-- `videoY = Math.round(clickY * scaleY)`. -/
def videoY (videoStream : Element) (e : MouseEvent) : Num :=
  Math_round (Num.mul (clickY videoStream e) (scaleY videoStream))

/-- The request of the `fetch('/select_object', ...)` call. -/
def selectRequest (videoStream : Element) (e : MouseEvent) : Request where
  url := "/select_object"
  method := "POST"
  headers := [("Content-Type", "application/json")]
  body := some (JSON_stringify (videoX videoStream e) (videoY videoStream e))

/-- The click listener of `videoStream` (lines 7-38). -/
def videoStreamClick (videoStream : Element) (e : MouseEvent)
    (network : Request → Settled Response) : Async Unit :=
  (((fetch network (selectRequest videoStream e)).andThen
      fun response => (([], response.json) : Async Json)).andThen
      fun data => console_log "Server response from click:" data).catch
      fun error => console_error "Error:" error

/-- The request of the `fetch('/reset_selection', ...)` call. -/
def resetRequest : Request where
  url := "/reset_selection"
  method := "POST"
  headers := []
  body := none

/-- The click listener of `resetButton` (lines 45-54). -/
def resetButtonClick (network : Request → Settled Response) : Async Unit :=
  (((fetch network resetRequest).andThen
      fun response => (([], response.json) : Async Json)).andThen
      fun data => console_log "Reset response:" data).catch
      fun error => console_error "Error:" error

/-- The two listeners the script defines. -/
inductive Listener where
  | videoStreamClick
  | resetButtonClick
  deriving DecidableEq, Repr

/-- A click delivered to a listener: `videoStream` is the element the script looked up,
in its state at the time of the click. -/
def Listener.run (listener : Listener) (videoStream : Element) (e : MouseEvent)
    (network : Request → Settled Response) : Async Unit :=
  match listener with
  | .videoStreamClick => MainJs.videoStreamClick videoStream e network
  | .resetButtonClick => MainJs.resetButtonClick network

/-- One `addEventListener` registration: the target's id, the event type, the listener. -/
structure Registration where
  target : String
  type : String
  listener : Listener
  deriving DecidableEq, Repr

/-- `target.addEventListener(type, listener)`; on `null` the property access throws. -/
def addEventListener (target : Option Element) (type : String) (listener : Listener)
    (installed : List Registration) : Except JsError (List Registration) :=
  match target with
  | none => .error ⟨"TypeError: Cannot read properties of null"⟩
  | some el => .ok (installed ++ [⟨el.id, type, listener⟩])

/-- The `DOMContentLoaded` listener (lines 1-57): the registrations it makes, or the
exception it throws. -/
def onDOMContentLoaded (document : Document) : Except JsError (List Registration) :=
  let videoStream := document.getElementById "video-stream"
  if videoStream.isSome then
    (addEventListener videoStream "click" .videoStreamClick []).bind fun installed =>
      let resetButton := document.getElementById "reset-button"
      if resetButton.isSome then
        addEventListener resetButton "click" .resetButtonClick installed
      else .ok installed
  else .ok []

/-- A click on `target` in a page on which the script has run. The event visits the
target and then the elements that contain it; on each it runs the listeners registered
there, in the order of registration. The listeners see `videoStream`, the element the
script looked up. Elements are told apart by their ids. -/
def dispatchClick (document : Document) (target : Element) (e : MouseEvent)
    (network : Request → Settled Response) : List Effect :=
  match onDOMContentLoaded document, document.getElementById "video-stream" with
  | .ok installed, some videoStream =>
    (target.id :: target.ancestors).flatMap fun id =>
      (installed.filter fun r => r.target = id && r.type = "click").flatMap fun r =>
        (r.listener.run videoStream e network).1
  | _, _ => []

/-! ## Pages and networks used as concrete inputs -/

/-- A network on which every request fails. -/
def offline : Request → Settled Response :=
  fun _ => .rejected ⟨"TypeError: Failed to fetch"⟩

/-- A video element without `data-video-width` and `data-video-height`, displayed 640×360. -/
def bareVideo : Element where
  id := "video-stream"
  rect := ⟨8, 8⟩
  clientWidth := 640
  clientHeight := 360
  dataset := []

/-- A video element whose native size is not numeric, displayed 640×360. -/
def autoVideo : Element where
  id := "video-stream"
  rect := ⟨8, 8⟩
  clientWidth := 640
  clientHeight := 360
  dataset := [("videoWidth", "auto"), ("videoHeight", "1080px")]

/-- A video element of native size 1920×1080 displayed 640×360. -/
def hdVideo : Element where
  id := "video-stream"
  rect := ⟨8, 8⟩
  clientWidth := 640
  clientHeight := 360
  dataset := [("videoWidth", "1920"), ("videoHeight", "1080")]

/-- A reset button. -/
def resetControl : Element where
  id := "reset-button"
  rect := ⟨8, 400⟩
  clientWidth := 80
  clientHeight := 24
  dataset := []

/-- A video element whose native size attributes are the numeric strings `1e308`,
displayed 1×1. -/
def hugeVideo : Element where
  id := "video-stream"
  rect := ⟨0, 0⟩
  clientWidth := 1
  clientHeight := 1
  dataset := [("videoWidth", "1e308"), ("videoHeight", "1e308")]

/-- A network that answers every request with the JSON text `\x7b"ok":true\x7d`. -/
def answering : Request → Settled Response :=
  fun _ => .fulfilled ⟨.fulfilled (.object [("ok", .bool true)])⟩

/-- A network whose answers are not JSON. -/
def garbled : Request → Settled Response :=
  fun _ => .fulfilled ⟨.rejected ⟨"SyntaxError: Unexpected token"⟩⟩

/-- A video element of native size 1920×1080 displayed 640×496. -/
def tallVideo : Element where
  id := "video-stream"
  rect := ⟨8, 8⟩
  clientWidth := 640
  clientHeight := 496
  dataset := [("videoWidth", "1920"), ("videoHeight", "1080")]

/-- A video element of native size 352×288 displayed 960×540. -/
def cifVideo : Element where
  id := "video-stream"
  rect := ⟨8, 8⟩
  clientWidth := 960
  clientHeight := 540
  dataset := [("videoWidth", "352"), ("videoHeight", "288")]

/-- A video element of native width `2 ^ 52 - 1` displayed 25×25. -/
def wideVideo : Element where
  id := "video-stream"
  rect := ⟨0, 0⟩
  clientWidth := 25
  clientHeight := 25
  dataset := [("videoWidth", "4503599627370495"), ("videoHeight", "1080")]

/-- A video element of native size 1920×1080 displayed 641×361 at the origin. -/
def oddVideo : Element where
  id := "video-stream"
  rect := ⟨0, 0⟩
  clientWidth := 641
  clientHeight := 361
  dataset := [("videoWidth", "1920"), ("videoHeight", "1080")]


/-- A video element of native size 1920×1080 displayed 800×450. -/
def wsvgaVideo : Element where
  id := "video-stream"
  rect := ⟨8, 8⟩
  clientWidth := 800
  clientHeight := 450
  dataset := [("videoWidth", "1920"), ("videoHeight", "1080")]

/-- A video element with `data-video-width=""` and `data-video-height=" "`, displayed
640×360. -/
def blankVideo : Element where
  id := "video-stream"
  rect := ⟨8, 8⟩
  clientWidth := 640
  clientHeight := 360
  dataset := [("videoWidth", ""), ("videoHeight", " ")]

/-- A video element with only `data-video-width` set, displayed 640×360. -/
def widthOnlyVideo : Element where
  id := "video-stream"
  rect := ⟨8, 8⟩
  clientWidth := 640
  clientHeight := 360
  dataset := [("videoWidth", "1920")]

/-- A reset button placed inside the `video-stream` element. -/
def innerResetControl : Element where
  id := "reset-button"
  rect := ⟨16, 16⟩
  clientWidth := 80
  clientHeight := 24
  dataset := []
  ancestors := ["video-stream"]
/-! ## Binary64 rounding: exponent, error and monotonicity -/

theorem bitLenAux_zero (fuel : ℕ) : bitLenAux fuel 0 = 0 := by
  cases fuel <;> simp [bitLenAux]

theorem bitLenAux_spec (fuel : ℕ) : ∀ n : ℕ, n ≤ fuel →
    n < 2 ^ bitLenAux fuel n ∧ (n ≠ 0 → 2 ^ bitLenAux fuel n ≤ 2 * n) := by
  induction fuel with
  | zero =>
    intro n hn
    have : n = 0 := by omega
    subst this
    simp [bitLenAux]
  | succ fuel ih =>
    intro n hn
    by_cases h0 : n = 0
    · subst h0
      simp [bitLenAux]
    · have hle : n / 2 ≤ fuel := by omega
      obtain ⟨h1, h2⟩ := ih (n / 2) hle
      simp only [bitLenAux, if_neg h0, pow_succ]
      refine ⟨by omega, fun _ => ?_⟩
      by_cases h3 : n / 2 = 0
      · rw [h3, bitLenAux_zero]
        simp
        omega
      · have := h2 h3
        omega

theorem bitLen_spec (n : ℕ) (h : n ≠ 0) :
    n < 2 ^ bitLen n ∧ 2 ^ bitLen n ≤ 2 * n :=
  ⟨(bitLenAux_spec n n le_rfl).1, (bitLenAux_spec n n le_rfl).2 h⟩

theorem abs_eq_natAbs_div_den (x : ℚ) : |x| = (x.num.natAbs : ℚ) / (x.den : ℚ) := by
  have h := Rat.num_div_den x
  have hd : (0 : ℚ) < x.den := by exact_mod_cast x.den_pos
  conv_lhs => rw [← h]
  rw [abs_div, abs_of_pos hd]
  rw [Nat.cast_natAbs, Int.cast_abs]

theorem ilog2_spec (x : ℚ) (hx : x ≠ 0) :
    (2 : ℚ) ^ ilog2 x ≤ |x| ∧ |x| < (2 : ℚ) ^ (ilog2 x + 1) := by
  have hn : x.num.natAbs ≠ 0 := by
    simpa [Int.natAbs_eq_zero] using hx
  have hd : x.den ≠ 0 := x.den_nz
  obtain ⟨n1, n2⟩ := bitLen_spec _ hn
  obtain ⟨d1, d2⟩ := bitLen_spec _ hd
  have habs := abs_eq_natAbs_div_den x
  have hdpos : (0 : ℚ) < x.den := by exact_mod_cast x.den_pos
  have n1' : (x.num.natAbs : ℚ) < (2 : ℚ) ^ (bitLen x.num.natAbs) := by exact_mod_cast n1
  have n2' : (2 : ℚ) ^ (bitLen x.num.natAbs) ≤ 2 * (x.num.natAbs : ℚ) := by exact_mod_cast n2
  have d1' : (x.den : ℚ) < (2 : ℚ) ^ (bitLen x.den) := by exact_mod_cast d1
  have d2' : (2 : ℚ) ^ (bitLen x.den) ≤ 2 * (x.den : ℚ) := by exact_mod_cast d2
  have hA : (0 : ℚ) < (2 : ℚ) ^ (bitLen x.num.natAbs) := by positivity
  have hB : (0 : ℚ) < (2 : ℚ) ^ (bitLen x.den) := by positivity
  have hk : ∀ j : ℤ, (2 : ℚ) ^ ((bitLen x.num.natAbs : ℤ) - (bitLen x.den : ℤ) + j)
      = (2 : ℚ) ^ (bitLen x.num.natAbs) / (2 : ℚ) ^ (bitLen x.den) * (2 : ℚ) ^ j := by
    intro j
    rw [zpow_add₀ (by norm_num), zpow_sub₀ (by norm_num), zpow_natCast, zpow_natCast]
  unfold ilog2
  simp only
  split_ifs with h
  · refine ⟨h, ?_⟩
    rw [hk 1, habs, zpow_one, div_mul_eq_mul_div, div_lt_div_iff₀ hdpos hB]
    nlinarith
  · push_neg at h
    constructor
    · have := hk (-1)
      rw [show (bitLen x.num.natAbs : ℤ) - (bitLen x.den : ℤ) + -1
        = (bitLen x.num.natAbs : ℤ) - (bitLen x.den : ℤ) - 1 by ring] at this
      rw [this, habs, div_mul_eq_mul_div, div_le_div_iff₀ hB hdpos]
      norm_num
      nlinarith
    · simpa using h

theorem rne_intCast (m : ℤ) : rne (m : ℚ) = m := by
  simp [rne]

theorem rne_sub_le (y : ℚ) : |(rne y : ℚ) - y| ≤ 1 / 2 := by
  have h1 := Int.floor_le y
  have h2 := Int.lt_floor_add_one y
  unfold rne
  simp only
  split_ifs with a b c
  · rw [abs_le]; constructor <;> linarith
  · rw [abs_le]; push_cast; constructor <;> linarith
  · rw [abs_le]; constructor <;> linarith
  · rw [abs_le]; push_cast; constructor <;> linarith

theorem rne_mono {y z : ℚ} (h : y ≤ z) : rne y ≤ rne z := by
  have hy1 := Int.floor_le y
  have hy2 := Int.lt_floor_add_one y
  have hz1 := Int.floor_le z
  have hz2 := Int.lt_floor_add_one z
  have hf : ⌊y⌋ ≤ ⌊z⌋ := Int.floor_mono h
  rcases hf.lt_or_eq with hlt | heq
  · have hy : rne y ≤ ⌊y⌋ + 1 := by
      unfold rne; simp only; split_ifs <;> omega
    have hz : ⌊z⌋ ≤ rne z := by
      unfold rne; simp only; split_ifs <;> omega
    omega
  · unfold rne
    simp only
    rw [heq] at *
    split_ifs <;> first | omega | (exfalso; linarith)

theorem rne_zero : rne 0 = 0 := by
  have := rne_intCast 0
  simpa using this

theorem ulp_pos (x : ℚ) : 0 < ulp x := by
  unfold ulp
  positivity

theorem rnd_zero : rnd 0 = 0 := by
  simp [rnd, rne_zero]

theorem rnd_sub_le (x : ℚ) : |rnd x - x| ≤ ulp x / 2 := by
  have hu := ulp_pos x
  have h := rne_sub_le (x / ulp x)
  have e : rnd x - x = ulp x * ((rne (x / ulp x) : ℚ) - x / ulp x) := by
    unfold rnd
    field_simp
    ring
  rw [e, abs_mul, abs_of_pos hu]
  calc ulp x * |(rne (x / ulp x) : ℚ) - x / ulp x| ≤ ulp x * (1 / 2) :=
        mul_le_mul_of_nonneg_left h hu.le
    _ = ulp x / 2 := by ring

theorem rnd_nonneg {x : ℚ} (hx : 0 ≤ x) : 0 ≤ rnd x := by
  have hu := ulp_pos x
  have h : rne 0 ≤ rne (x / ulp x) := rne_mono (div_nonneg hx hu.le)
  rw [rne_zero] at h
  unfold rnd
  exact mul_nonneg hu.le (by exact_mod_cast h)

/-- In the normal range the grid spacing is at most `2 ^ (-52)` times the magnitude. -/
theorem ulp_le_of_normal {x : ℚ} (hx : (2 : ℚ) ^ (-1022 : ℤ) ≤ |x|) :
    ulp x ≤ (2 : ℚ) ^ (-52 : ℤ) * |x| := by
  have hx0 : x ≠ 0 := by
    intro h
    rw [h, abs_zero] at hx
    have : (0 : ℚ) < (2 : ℚ) ^ (-1022 : ℤ) := by positivity
    linarith
  obtain ⟨h1, h2⟩ := ilog2_spec x hx0
  have hlt : (2 : ℚ) ^ (-1022 : ℤ) < (2 : ℚ) ^ (ilog2 x + 1) := lt_of_le_of_lt hx h2
  rw [zpow_lt_zpow_iff_right₀ (by norm_num : (1 : ℚ) < 2)] at hlt
  have hmax : max (ilog2 x) (-1022) = ilog2 x := max_eq_left (by omega)
  unfold ulp
  rw [hmax, sub_eq_add_neg, zpow_add₀ (by norm_num : (2 : ℚ) ≠ 0), mul_comm]
  exact mul_le_mul_of_nonneg_left h1 (by positivity)

theorem ilog2_mono {x y : ℚ} (hx : 0 < x) (hxy : x ≤ y) : ilog2 x ≤ ilog2 y := by
  have hy : 0 < y := lt_of_lt_of_le hx hxy
  obtain ⟨a1, _⟩ := ilog2_spec x hx.ne'
  obtain ⟨_, b2⟩ := ilog2_spec y hy.ne'
  rw [abs_of_pos hx] at a1
  rw [abs_of_pos hy] at b2
  have : (2 : ℚ) ^ ilog2 x < (2 : ℚ) ^ (ilog2 y + 1) := by linarith
  rw [zpow_lt_zpow_iff_right₀ (by norm_num : (1 : ℚ) < 2)] at this
  omega

/-- A positive rational rounds to at most the top of its binade. -/
theorem rnd_le_binade_top {x : ℚ} (hx : 0 < x) :
    rnd x ≤ (2 : ℚ) ^ (max (ilog2 x) (-1022) + 1) := by
  obtain ⟨_, h2⟩ := ilog2_spec x hx.ne'
  rw [abs_of_pos hx] at h2
  have hu := ulp_pos x
  have hE : (2 : ℚ) ^ (ilog2 x + 1) ≤ (2 : ℚ) ^ (max (ilog2 x) (-1022) + 1) :=
    zpow_le_zpow_right₀ (by norm_num) (by omega)
  have htop : (2 : ℚ) ^ (max (ilog2 x) (-1022) + 1) = ulp x * (((2 : ℤ) ^ 53 : ℤ) : ℚ) := by
    unfold ulp
    rw [show max (ilog2 x) (-1022) + 1 = (max (ilog2 x) (-1022) - 52) + 53 by ring,
      zpow_add₀ (by norm_num : (2 : ℚ) ≠ 0)]
    norm_num
  have hle : x / ulp x ≤ (((2 : ℤ) ^ 53 : ℤ) : ℚ) := by
    rw [div_le_iff₀ hu, mul_comm, ← htop]
    linarith
  have := rne_mono hle
  rw [rne_intCast] at this
  rw [htop]
  unfold rnd
  exact mul_le_mul_of_nonneg_left (by exact_mod_cast this) hu.le

/-- A rational at or above the bottom of a normal binade rounds to at least that bottom. -/
theorem binade_bottom_le_rnd {x : ℚ} (hx : 0 < x) (hE : -1022 < max (ilog2 x) (-1022)) :
    (2 : ℚ) ^ (max (ilog2 x) (-1022)) ≤ rnd x := by
  obtain ⟨h1, _⟩ := ilog2_spec x hx.ne'
  rw [abs_of_pos hx] at h1
  have hmax : max (ilog2 x) (-1022) = ilog2 x := max_eq_left (by omega)
  have hu := ulp_pos x
  have hbot : (2 : ℚ) ^ (max (ilog2 x) (-1022)) = ulp x * (((2 : ℤ) ^ 52 : ℤ) : ℚ) := by
    unfold ulp
    conv_lhs => rw [show max (ilog2 x) (-1022) = (max (ilog2 x) (-1022) - 52) + 52 by ring,
      zpow_add₀ (by norm_num : (2 : ℚ) ≠ 0)]
    norm_num
  have hle : (((2 : ℤ) ^ 52 : ℤ) : ℚ) ≤ x / ulp x := by
    rw [le_div_iff₀ hu, mul_comm, ← hbot, hmax]
    exact h1
  have := rne_mono hle
  rw [rne_intCast] at this
  rw [hbot]
  unfold rnd
  exact mul_le_mul_of_nonneg_left (by exact_mod_cast this) hu.le

/-- Rounding to binary64 is monotone on the non-negative rationals. -/
theorem rnd_mono_of_nonneg {x y : ℚ} (hx : 0 ≤ x) (hxy : x ≤ y) : rnd x ≤ rnd y := by
  rcases hx.lt_or_eq with hpos | h0
  · have hy : 0 < y := lt_of_lt_of_le hpos hxy
    have hlog := ilog2_mono hpos hxy
    have hE : max (ilog2 x) (-1022) ≤ max (ilog2 y) (-1022) := max_le_max hlog le_rfl
    rcases hE.lt_or_eq with hlt | heq
    · have a := rnd_le_binade_top hpos
      have b := binade_bottom_le_rnd hy (by
        have := le_max_right (ilog2 x) (-1022)
        omega)
      have c : (2 : ℚ) ^ (max (ilog2 x) (-1022) + 1) ≤ (2 : ℚ) ^ (max (ilog2 y) (-1022)) :=
        zpow_le_zpow_right₀ (by norm_num) (by omega)
      linarith
    · have hu : ulp x = ulp y := by
        unfold ulp
        rw [heq]
      unfold rnd
      rw [hu]
      have := rne_mono (div_le_div_of_nonneg_right hxy (ulp_pos y).le)
      exact mul_le_mul_of_nonneg_left (by exact_mod_cast this) (ulp_pos y).le
  · rw [← h0, rnd_zero]
    exact rnd_nonneg (h0 ▸ hxy)

/-! ## Strings that are not numeric literals -/

theorem digitValue_eq_none_of_hex {radix : ℕ} {c : Char} (hr : radix ≤ 16)
    (h : digitValue 16 c = none) : digitValue radix c = none := by
  unfold digitValue at h ⊢
  simp only at h ⊢
  split_ifs at h ⊢ with a b d
  all_goals first
    | rfl
    | (simp only [Option.bind, Option.some_bind] at h ⊢
       split_ifs at h ⊢ <;> first | rfl | omega)

theorem digitsValue_eq_none {radix : ℕ} {c : Char} (h : digitValue radix c = none) :
    ∀ (ds : List Char) (acc : ℕ), c ∈ ds → digitsValue radix ds acc = none := by
  intro ds
  induction ds with
  | nil => intro acc hc; simp at hc
  | cons d t ih =>
    intro acc hc
    rw [List.mem_cons] at hc
    unfold digitsValue
    rcases hc with hc | hc
    · rw [← hc, h]
      rfl
    · cases hd : digitValue radix d with
      | none => rfl
      | some v => exact ih _ hc

theorem mem_dropWhile_of_false {p : Char → Bool} {c : Char} (hp : p c = false) :
    ∀ l : List Char, c ∈ l → c ∈ l.dropWhile p := by
  intro l
  induction l with
  | nil => intro h; exact h
  | cons a t ih =>
    intro h
    rw [List.dropWhile_cons]
    split_ifs with ha
    · rw [List.mem_cons] at h
      rcases h with h | h
      · rw [h, ha] at hp
        exact Bool.noConfusion hp
      · exact ih h
    · exact h

theorem head_dropWhile_false {p : Char → Bool} {h : Char} {t : List Char} :
    ∀ l : List Char, l.dropWhile p = h :: t → p h = false := by
  intro l
  induction l with
  | nil => intro e; exact List.noConfusion e
  | cons a s ih =>
    intro e
    rw [List.dropWhile_cons] at e
    split_ifs at e with ha
    · exact ih e
    · rw [← (List.cons.inj e).1]
      simpa using ha

theorem mem_of_takeWhile_dropWhile {p : Char → Bool} {c : Char} {l : List Char} (h : c ∈ l) :
    c ∈ l.takeWhile p ∨ c ∈ l.dropWhile p := by
  rw [← List.mem_append, List.takeWhile_append_dropWhile]
  exact h

theorem signedInteger_eq_none {c : Char} {es : List Char} (hc : c ∈ es)
    (hd : digitValue 10 c = none) (hplus : c ≠ '+') (hminus : c ≠ '-') :
    signedInteger es = none := by
  unfold signedInteger
  split
  · simp at hc
  · rename_i ds
    have : c ∈ ds := by
      rw [List.mem_cons] at hc
      exact hc.resolve_left hplus
    split_ifs
    · rfl
    · rw [digitsValue_eq_none hd _ _ this]
      rfl
  · rename_i ds
    have : c ∈ ds := by
      rw [List.mem_cons] at hc
      exact hc.resolve_left hminus
    split_ifs
    · rfl
    · rw [digitsValue_eq_none hd _ _ this]
      rfl
  · rw [digitsValue_eq_none hd _ _ hc]
    rfl

theorem unsignedDecimalValue_eq_none {c : Char} {cs : List Char} (hc : c ∈ cs)
    (hd : digitValue 10 c = none) (he : c ≠ 'e') (hE : c ≠ 'E') (hdot : c ≠ '.')
    (hplus : c ≠ '+') (hminus : c ≠ '-') : unsignedDecimalValue cs = none := by
  unfold unsignedDecimalValue
  simp only
  split_ifs with hempty
  · rfl
  · rcases mem_of_takeWhile_dropWhile (p := fun c => c != 'e' && c != 'E') hc with hm | hr
    · -- the character is in the mantissa
      have hmem : c ∈ List.takeWhile (fun c => c != '.')
            (List.takeWhile (fun c => c != 'e' && c != 'E') cs)
          ++ List.drop 1 (List.dropWhile (fun c => c != '.')
            (List.takeWhile (fun c => c != 'e' && c != 'E') cs)) := by
        rw [List.mem_append]
        rcases mem_of_takeWhile_dropWhile (p := fun c => c != '.') hm with hi | ha
        · exact Or.inl hi
        · right
          cases hdw : List.dropWhile (fun c => c != '.')
              (List.takeWhile (fun c => c != 'e' && c != 'E') cs) with
          | nil =>
            rw [hdw] at ha
            simp at ha
          | cons h t =>
            rw [hdw] at ha
            have hh := head_dropWhile_false _ hdw
            have : h = '.' := by simpa using hh
            rw [List.mem_cons] at ha
            rcases ha with ha | ha
            · exact absurd (ha.trans this) hdot
            · simpa using ha
      rw [digitsValue_eq_none hd _ _ hmem]
      rfl
    · -- the character is in the exponent part
      cases hdw : List.dropWhile (fun c => c != 'e' && c != 'E') cs with
      | nil =>
        rw [hdw] at hr
        simp at hr
      | cons h es =>
        rw [hdw] at hr
        have hh := head_dropWhile_false _ hdw
        have hhe : h = 'e' ∨ h = 'E' := by
          simp only [Bool.and_eq_false_imp, bne_iff_ne, ne_eq, bne_eq_false_iff_eq] at hh
          by_cases h1 : h = 'e'
          · exact Or.inl h1
          · exact Or.inr (hh h1)
        have hces : c ∈ es := by
          rw [List.mem_cons] at hr
          rcases hr with hr | hr
          · rcases hhe with h1 | h1
            · exact absurd (hr.trans h1) he
            · exact absurd (hr.trans h1) hE
          · exact hr
        simp only [signedInteger_eq_none hces hd hplus hminus, Option.map_none']
        cases digitsValue 10 _ 0 <;> rfl

theorem strDecimalLiteral_eq_nan {c : Char} {cs : List Char} (hc : c ∈ cs)
    (hd : digitValue 16 c = none) (hnot : c ∉ "+-.xXoOInity".toList) :
    strDecimalLiteral cs = Num.nan := by
  have hd10 : digitValue 10 c = none := digitValue_eq_none_of_hex (by norm_num) hd
  have he : c ≠ 'e' := fun h => absurd (h ▸ hd) (by decide)
  have hE : c ≠ 'E' := fun h => absurd (h ▸ hd) (by decide)
  have hf : c ≠ 'f' := fun h => absurd (h ▸ hd) (by decide)
  have hdot : c ≠ '.' := fun h => hnot (h ▸ by decide)
  have hplus : c ≠ '+' := fun h => hnot (h ▸ by decide)
  have hminus : c ≠ '-' := fun h => hnot (h ▸ by decide)
  have key : ∀ (neg : Bool) (ds : List Char), c ∈ ds →
      (if ds = "Infinity".toList then (if neg then Num.negInf else Num.posInf)
        else
          match unsignedDecimalValue ds with
          | some v => roundToDouble (if neg then -v else v)
          | none => Num.nan) = Num.nan := by
    intro neg ds hmem
    have hne : ds ≠ "Infinity".toList := by
      intro h
      rw [h] at hmem
      have : c ∈ ['I', 'n', 'f', 'i', 'n', 'i', 't', 'y'] := hmem
      simp only [List.mem_cons, List.mem_singleton, List.not_mem_nil, or_false] at this
      rcases this with h | h | h | h | h | h | h | h
      all_goals first
        | exact hf h
        | exact hnot (h ▸ by decide)
    rw [if_neg hne, unsignedDecimalValue_eq_none hmem hd10 he hE hdot hplus hminus]
  unfold strDecimalLiteral
  split
  · rename_i ds
    exact key _ _ ((List.mem_cons.mp hc).resolve_left hplus)
  · rename_i ds
    exact key _ _ ((List.mem_cons.mp hc).resolve_left hminus)
  · exact key _ _ hc

theorem nonDecimalIntegerLiteral_eq_nan {c : Char} {cs : List Char} {v : Num} (hc : c ∈ cs)
    (hd : digitValue 16 c = none) (hnot : c ∉ "+-.xXoOInity".toList)
    (h : nonDecimalIntegerLiteral cs = some v) : v = Num.nan := by
  have h0 : c ≠ '0' := fun h => absurd (h ▸ hd) (by decide)
  have hb : c ≠ 'b' := fun h => absurd (h ▸ hd) (by decide)
  have hB : c ≠ 'B' := fun h => absurd (h ▸ hd) (by decide)
  have ho : c ≠ 'o' := fun h => hnot (h ▸ by decide)
  have hO : c ≠ 'O' := fun h => hnot (h ▸ by decide)
  have hx : c ≠ 'x' := fun h => hnot (h ▸ by decide)
  have hX : c ≠ 'X' := fun h => hnot (h ▸ by decide)
  have key : ∀ (radix : ℕ) (ds : List Char) (w : Num), radix ≤ 16 → c ∈ ds →
      (if ds = [] then some Num.nan
        else
          match digitsValue radix ds 0 with
          | some n => some (roundToDouble n)
          | none => some Num.nan) = some w → w = Num.nan := by
    intro radix ds w hr hmem hw
    rw [digitsValue_eq_none (digitValue_eq_none_of_hex hr hd) _ _ hmem] at hw
    split_ifs at hw <;> exact (Option.some.inj hw).symm
  have tail : ∀ (a b : Char) (ds : List Char), c ≠ a → c ≠ b → c ∈ a :: b :: ds → c ∈ ds := by
    intro a b ds ha hb hm
    exact ((List.mem_cons.mp ((List.mem_cons.mp hm).resolve_left ha)).resolve_left hb)
  unfold nonDecimalIntegerLiteral at h
  split at h
  · exact key 2 _ _ (by norm_num) (tail _ _ _ h0 hb hc) h
  · exact key 2 _ _ (by norm_num) (tail _ _ _ h0 hB hc) h
  · exact key 8 _ _ (by norm_num) (tail _ _ _ h0 ho hc) h
  · exact key 8 _ _ (by norm_num) (tail _ _ _ h0 hO hc) h
  · exact key 16 _ _ (by norm_num) (tail _ _ _ h0 hx hc) h
  · exact key 16 _ _ (by norm_num) (tail _ _ _ h0 hX hc) h
  · exact Option.noConfusion h

/-- A string with a character that is not white space, not a hexadecimal digit and none
of `+ - . x X o O I n i t y` is not a numeric literal: its Number value is `NaN`. -/
theorem StringToNumber_eq_nan {c : Char} {s : String} (hc : c ∈ s.toList)
    (hws : isStrWhiteSpaceChar c = false) (hd : digitValue 16 c = none)
    (hnot : c ∉ "+-.xXoOInity".toList) : StringToNumber s = Num.nan := by
  have hmem : c ∈ ((s.toList.dropWhile isStrWhiteSpaceChar).reverse.dropWhile
      isStrWhiteSpaceChar).reverse := by
    rw [List.mem_reverse]
    apply mem_dropWhile_of_false hws
    rw [List.mem_reverse]
    exact mem_dropWhile_of_false hws _ hc
  unfold StringToNumber
  simp only
  rw [if_neg (List.ne_nil_of_mem hmem)]
  split
  · rename_i v hv
    exact nonDecimalIntegerLiteral_eq_nan hmem hd hnot hv
  · exact strDecimalLiteral_eq_nan hmem hd hnot

/-- The empty string and a string of white space have the Number value `+0`. -/
theorem StringToNumber_eq_zero {s : String} (h : ∀ c ∈ s.toList, isStrWhiteSpaceChar c = true) :
    StringToNumber s = Num.fin 0 := by
  have : s.toList.dropWhile isStrWhiteSpaceChar = [] := by
    rw [List.dropWhile_eq_nil_iff]
    exact h
  unfold StringToNumber
  simp only [this]
  rfl
/-! ## Number operations on special values -/

theorem roundToDouble_zero : roundToDouble 0 = Num.fin 0 := by
  have h : (0 : ℚ) < (2 : ℚ) ^ (1024 : ℕ) := by positivity
  unfold roundToDouble
  simp only [rnd_zero]
  rw [if_neg (not_le.mpr h), if_neg (not_le.mpr (by linarith))]

theorem roundToDouble_of_lt {x : ℚ} (h1 : -(2 : ℚ) ^ (1024 : ℕ) < rnd x)
    (h2 : rnd x < (2 : ℚ) ^ (1024 : ℕ)) : roundToDouble x = Num.fin (rnd x) := by
  unfold roundToDouble
  simp only
  rw [if_neg (not_le.mpr h2), if_neg (not_le.mpr h1)]

theorem rnd_of_roundToDouble {x r : ℚ} (h : roundToDouble x = Num.fin r) : r = rnd x := by
  unfold roundToDouble at h
  simp only at h
  split_ifs at h
  exact (Num.fin.inj h).symm

theorem Num.mul_nan_right (a : Num) : Num.mul a Num.nan = Num.nan := by
  cases a <;> rfl

theorem Num.div_nan_left (b : Num) : Num.div Num.nan b = Num.nan := by
  cases b <;> rfl

theorem Num.sub_self_fin (a : ℚ) : Num.sub (Num.fin a) (Num.fin a) = Num.fin 0 := by
  simp [Num.sub, roundToDouble_zero]

theorem Num.zero_mul_fin (s : ℚ) : Num.mul (Num.fin 0) (Num.fin s) = Num.fin 0 := by
  simp [Num.mul, roundToDouble_zero]

theorem Math_round_zero : Math_round (Num.fin 0) = Num.fin 0 := by
  have h : ⌊(0 : ℚ) + 1 / 2⌋ = 0 := by
    rw [Int.floor_eq_iff]
    norm_num
  show Num.fin ((⌊(0 : ℚ) + 1 / 2⌋ : ℤ) : ℚ) = Num.fin 0
  rw [h]
  norm_num

theorem getElementById_id {document : Document} {id : String} {el : Element}
    (h : document.getElementById id = some el) : el.id = id := by
  have := List.find?_some h
  simpa using this

theorem requests_videoStreamClick (videoStream : Element) (e : MouseEvent)
    (network : Request → Settled Response) :
    requests (videoStreamClick videoStream e network).1 = [selectRequest videoStream e] := by
  unfold videoStreamClick fetch
  cases h : network (selectRequest videoStream e) with
  | rejected reason => simp [Async.andThen, Async.catch, console_error, requests, h]
  | fulfilled response =>
    cases hj : response.json with
    | rejected reason => simp [Async.andThen, Async.catch, console_error, requests, h, hj]
    | fulfilled data => simp [Async.andThen, Async.catch, console_log, requests, h, hj]

theorem requests_resetButtonClick (network : Request → Settled Response) :
    requests (resetButtonClick network).1 = [resetRequest] := by
  unfold resetButtonClick fetch
  cases h : network resetRequest with
  | rejected reason => simp [Async.andThen, Async.catch, console_error, requests, h]
  | fulfilled response =>
    cases hj : response.json with
    | rejected reason => simp [Async.andThen, Async.catch, console_error, requests, h, hj]
    | fulfilled data => simp [Async.andThen, Async.catch, console_log, requests, h, hj]

theorem hugeVideo_native :
    ToNumber (nativeWidth hugeVideo)
        = Num.fin (100000000000000001097906362944045541740492309677311846336810682903157585404911491537163328978494688899061249669721172515611590283743140088328307009198146046031271664502933027185697489699588559043338384466165001178426897626212945177628091195786707458122783970171784415105291802893207873272974885715430223118336 : ℕ)
      ∧ ToNumber (nativeHeight hugeVideo)
        = Num.fin (100000000000000001097906362944045541740492309677311846336810682903157585404911491537163328978494688899061249669721172515611590283743140088328307009198146046031271664502933027185697489699588559043338384466165001178426897626212945177628091195786707458122783970171784415105291802893207873272974885715430223118336 : ℕ) := by
  constructor <;> decide!

/-! ## The claims -/

/-- C2, as stated, fails: with the native-size attributes missing the scale factors are
`NaN`, and a click on the exact top-left corner (`clientX = rect.left`,
`clientY = rect.top`) yields `NaN` coordinates, sent as `null`, not `(0, 0)`. -/
theorem C2_counterexample :
    (⟨8, 8⟩ : MouseEvent).clientX = bareVideo.rect.left
      ∧ (⟨8, 8⟩ : MouseEvent).clientY = bareVideo.rect.top
      ∧ clickX bareVideo ⟨8, 8⟩ = Num.fin 0 ∧ clickY bareVideo ⟨8, 8⟩ = Num.fin 0
      ∧ scaleX bareVideo = Num.nan ∧ scaleY bareVideo = Num.nan
      ∧ videoX bareVideo ⟨8, 8⟩ = Num.nan ∧ videoY bareVideo ⟨8, 8⟩ = Num.nan
      ∧ videoX bareVideo ⟨8, 8⟩ ≠ Num.fin 0
      ∧ (selectRequest bareVideo ⟨8, 8⟩).body = some "\x7b\"x\":null,\"y\":null\x7d" := by
  refine ⟨rfl, rfl, ?_, ?_, rfl, rfl, ?_, ?_, ?_, ?_⟩
  · exact Num.sub_self_fin 8
  · exact Num.sub_self_fin 8
  · exact congrArg Math_round (Num.mul_nan_right _)
  · exact congrArg Math_round (Num.mul_nan_right _)
  · have h : videoX bareVideo ⟨8, 8⟩ = Num.nan := congrArg Math_round (Num.mul_nan_right _)
    rw [h]
    exact Num.noConfusion
  · have hx : videoX bareVideo ⟨8, 8⟩ = Num.nan := congrArg Math_round (Num.mul_nan_right _)
    have hy : videoY bareVideo ⟨8, 8⟩ = Num.nan := congrArg Math_round (Num.mul_nan_right _)
    simp only [selectRequest, hx, hy]
    decide

/-- C2, amended: for every click on the exact top-left corner of the video surface
(`clientX = rect.left`, `clientY = rect.top`) and every finite value of the scale factors
`scaleX` and `scaleY`, the handler yields the coordinate `(0, 0)` and sends the body
`\x7b"x":0,"y":0\x7d`. -/
theorem C2_top_left_corner_maps_to_origin (videoStream : Element) (e : MouseEvent)
    (sx sy : ℚ) (hx : e.clientX = videoStream.rect.left) (hy : e.clientY = videoStream.rect.top)
    (hsx : scaleX videoStream = Num.fin sx) (hsy : scaleY videoStream = Num.fin sy) :
    videoX videoStream e = Num.fin 0 ∧ videoY videoStream e = Num.fin 0
      ∧ (selectRequest videoStream e).body = some "\x7b\"x\":0,\"y\":0\x7d" := by
  have cx : clickX videoStream e = Num.fin 0 := by
    unfold clickX
    rw [hx]
    exact Num.sub_self_fin _
  have cy : clickY videoStream e = Num.fin 0 := by
    unfold clickY
    rw [hy]
    exact Num.sub_self_fin _
  have vx : videoX videoStream e = Num.fin 0 := by
    unfold videoX
    rw [cx, hsx, Num.zero_mul_fin, Math_round_zero]
  have vy : videoY videoStream e = Num.fin 0 := by
    unfold videoY
    rw [cy, hsy, Num.zero_mul_fin, Math_round_zero]
  refine ⟨vx, vy, ?_⟩
  simp only [selectRequest, vx, vy]
  decide

/-- The amended C2 at a concrete click: native 1920×1080 displayed 640×360 at offset
`(8, 8)`, click at client position `(8, 8)`. -/
theorem C2_top_left_corner_witness :
    videoX hdVideo ⟨8, 8⟩ = Num.fin 0 ∧ videoY hdVideo ⟨8, 8⟩ = Num.fin 0
      ∧ (selectRequest hdVideo ⟨8, 8⟩).body = some "\x7b\"x\":0,\"y\":0\x7d" :=
  C2_top_left_corner_maps_to_origin hdVideo ⟨8, 8⟩ 3 3 rfl rfl (by decide!) (by decide!)

/-- `NaN` in the native extent makes the scale factor and the coordinate `NaN`. -/
theorem nan_propagates {value : Option String} (displayed click : Num)
    (h : ToNumber value = Num.nan) :
    Num.div (ToNumber value) displayed = Num.nan
      ∧ Math_round (Num.mul click (Num.div (ToNumber value) displayed)) = Num.nan := by
  rw [h, Num.div_nan_left, Num.mul_nan_right]
  exact ⟨rfl, rfl⟩

/-- The three ways in which the native extent is `NaN`: the attribute is missing, its
string has a character that no numeric literal has, or its string converts to `NaN`. -/
theorem ToNumber_eq_nan {value : Option String}
    (h : value = none
      ∨ (∃ s c, value = some s ∧ c ∈ s.toList ∧ isStrWhiteSpaceChar c = false
          ∧ digitValue 16 c = none ∧ c ∉ "+-.xXoOInity".toList)
      ∨ ToNumber value = Num.nan) : ToNumber value = Num.nan := by
  rcases h with h | ⟨s, c, h, hc, hws, hd, hnot⟩ | h
  · rw [h]
    rfl
  · rw [h]
    exact StringToNumber_eq_nan hc hws hd hnot
  · exact h

/-- A blank attribute gives the scale factor `0` and the coordinate `0`. -/
theorem blank_gives_zero {s : String} {D : ℕ} (hD : 0 < D)
    (h : ∀ c ∈ s.toList, isStrWhiteSpaceChar c = true) :
    Num.div (ToNumber (some s)) (Num.fin D) = Num.fin 0
      ∧ ∀ cx : ℚ, Math_round (Num.mul (Num.fin cx) (Num.div (ToNumber (some s)) (Num.fin D)))
          = Num.fin 0 := by
  have hD' : (D : ℚ) ≠ 0 := by exact_mod_cast hD.ne'
  have hz : ToNumber (some s) = Num.fin 0 := StringToNumber_eq_zero h
  have hs : Num.div (ToNumber (some s)) (Num.fin D) = Num.fin 0 := by
    rw [hz]
    show (if (D : ℚ) = 0 then _ else _) = _
    rw [if_neg hD', zero_div, roundToDouble_zero]
  refine ⟨hs, fun cx => ?_⟩
  rw [hs]
  show Math_round (roundToDouble (cx * 0)) = _
  rw [mul_zero, roundToDouble_zero, Math_round_zero]

/-- C3, as stated, fails: `data-video-width=""` and `data-video-height=" "` are not
numeric strings, yet `ToNumber` turns them into `0`: the scale factors are `0`, not `NaN`,
the coordinate is `(0, 0)` and the body is `\x7b"x":0,"y":0\x7d`. -/
theorem C3_counterexample :
    nativeWidth blankVideo = some "" ∧ nativeHeight blankVideo = some " "
      ∧ scaleX blankVideo = Num.fin 0 ∧ scaleY blankVideo = Num.fin 0
      ∧ scaleX blankVideo ≠ Num.nan ∧ scaleY blankVideo ≠ Num.nan
      ∧ videoX blankVideo ⟨108, 58⟩ = Num.fin 0 ∧ videoY blankVideo ⟨108, 58⟩ = Num.fin 0
      ∧ videoX blankVideo ⟨108, 58⟩ ≠ Num.nan ∧ videoY blankVideo ⟨108, 58⟩ ≠ Num.nan
      ∧ (selectRequest blankVideo ⟨108, 58⟩).body = some "\x7b\"x\":0,\"y\":0\x7d" := by
  refine ⟨rfl, rfl, by decide!, by decide!, by decide!, by decide!, by decide!, by decide!,
    by decide!, by decide!, by decide!⟩

/-- C3, amended. When `data-video-width` is missing, or is a string with a character
that is not white space, not a hexadecimal digit and none of `+ - . x X o O I n i t y`
(such as `auto` or `1080px`), or is any string that `ToNumber` turns into `NaN`, then
`scaleX` is `NaN` and `videoX` is `NaN`. When it is the empty string or white space only
and the displayed width is `> 0`, `scaleX` is `0` and `videoX` is `0` for every finite
`clickX`. Likewise for `data-video-height`, `scaleY` and `videoY`. The handler does not
crash: it goes on to issue its request. -/
theorem C3_missing_or_non_numeric_metadata_gives_nan (videoStream : Element)
    (e : MouseEvent) (network : Request → Settled Response) :
    ((nativeWidth videoStream = none
        ∨ (∃ s c, nativeWidth videoStream = some s ∧ c ∈ s.toList
            ∧ isStrWhiteSpaceChar c = false ∧ digitValue 16 c = none
            ∧ c ∉ "+-.xXoOInity".toList)
        ∨ ToNumber (nativeWidth videoStream) = Num.nan) →
      scaleX videoStream = Num.nan ∧ videoX videoStream e = Num.nan)
    ∧ ((nativeHeight videoStream = none
        ∨ (∃ s c, nativeHeight videoStream = some s ∧ c ∈ s.toList
            ∧ isStrWhiteSpaceChar c = false ∧ digitValue 16 c = none
            ∧ c ∉ "+-.xXoOInity".toList)
        ∨ ToNumber (nativeHeight videoStream) = Num.nan) →
      scaleY videoStream = Num.nan ∧ videoY videoStream e = Num.nan)
    ∧ (∀ s, nativeWidth videoStream = some s →
        (∀ c ∈ s.toList, isStrWhiteSpaceChar c = true) → 0 < videoStream.clientWidth →
        scaleX videoStream = Num.fin 0
          ∧ ∀ cx, clickX videoStream e = Num.fin cx → videoX videoStream e = Num.fin 0)
    ∧ (∀ s, nativeHeight videoStream = some s →
        (∀ c ∈ s.toList, isStrWhiteSpaceChar c = true) → 0 < videoStream.clientHeight →
        scaleY videoStream = Num.fin 0
          ∧ ∀ cy, clickY videoStream e = Num.fin cy → videoY videoStream e = Num.fin 0)
    ∧ requests (videoStreamClick videoStream e network).1 = [selectRequest videoStream e] := by
  refine ⟨fun h => ?_, fun h => ?_, fun s hs hb hD => ?_, fun s hs hb hD => ?_,
    requests_videoStreamClick _ _ _⟩
  · exact nan_propagates _ _ (ToNumber_eq_nan h)
  · exact nan_propagates _ _ (ToNumber_eq_nan h)
  · obtain ⟨a, b⟩ := blank_gives_zero hD hb
    refine ⟨?_, fun cx hcx => ?_⟩
    · unfold scaleX displayWidth
      rw [hs]
      exact a
    · unfold videoX scaleX displayWidth
      rw [hs, hcx]
      exact b cx
  · obtain ⟨a, b⟩ := blank_gives_zero hD hb
    refine ⟨?_, fun cy hcy => ?_⟩
    · unfold scaleY displayHeight
      rw [hs]
      exact a
    · unfold videoY scaleY displayHeight
      rw [hs, hcy]
      exact b cy

/-- The amended C3 at concrete elements: `data-video-width="auto"` has the character `u`
and `data-video-height="1080px"` the character `p`; an element without the attributes has
them missing; `data-video-width=""` gives the scale factor `0`. -/
theorem C3_missing_or_non_numeric_metadata_witness :
    (scaleX autoVideo = Num.nan ∧ videoX autoVideo ⟨100, 50⟩ = Num.nan)
      ∧ (scaleY autoVideo = Num.nan ∧ videoY autoVideo ⟨100, 50⟩ = Num.nan)
      ∧ (scaleX bareVideo = Num.nan ∧ videoX bareVideo ⟨100, 50⟩ = Num.nan)
      ∧ scaleX blankVideo = Num.fin 0 :=
  ⟨(C3_missing_or_non_numeric_metadata_gives_nan autoVideo ⟨100, 50⟩ offline).1
      (Or.inr (Or.inl ⟨"auto", 'u', rfl, by decide, by decide, by decide, by decide⟩)),
    (C3_missing_or_non_numeric_metadata_gives_nan autoVideo ⟨100, 50⟩ offline).2.1
      (Or.inr (Or.inl ⟨"1080px", 'p', rfl, by decide, by decide, by decide, by decide⟩)),
    (C3_missing_or_non_numeric_metadata_gives_nan bareVideo ⟨100, 50⟩ offline).1
      (Or.inl rfl),
    ((C3_missing_or_non_numeric_metadata_gives_nan blankVideo ⟨100, 50⟩ offline).2.2.1
      "" rfl (by decide) (by decide)).1⟩

/-- C4, as stated, fails: with the native-size attributes missing `videoX` and `videoY`
are `NaN`, but the body of the POST does not carry `NaN`: `JSON.stringify` serialises a
`NaN` member as `null`. -/
theorem C4_counterexample :
    nativeWidth bareVideo = none ∧ nativeHeight bareVideo = none
      ∧ videoX bareVideo ⟨100, 50⟩ = Num.nan ∧ videoY bareVideo ⟨100, 50⟩ = Num.nan
      ∧ (selectRequest bareVideo ⟨100, 50⟩).body = some "\x7b\"x\":null,\"y\":null\x7d"
      ∧ (selectRequest bareVideo ⟨100, 50⟩).body ≠ some "\x7b\"x\":NaN,\"y\":NaN\x7d" := by
  have hx : videoX bareVideo ⟨100, 50⟩ = Num.nan := congrArg Math_round (Num.mul_nan_right _)
  have hy : videoY bareVideo ⟨100, 50⟩ = Num.nan := congrArg Math_round (Num.mul_nan_right _)
  refine ⟨rfl, rfl, hx, hy, ?_, ?_⟩
  · simp only [selectRequest, hx, hy]
    decide
  · simp only [selectRequest, hx, hy]
    decide

/-- C4, amended: when the native-size attributes are absent, the computed `videoX` and
`videoY` are `NaN` and the body of the POST to `/select_object` is
`\x7b"x":null,"y":null\x7d`: each `NaN` coordinate is serialised as `null`. -/
theorem C4_absent_metadata_sends_null (videoStream : Element) (e : MouseEvent)
    (network : Request → Settled Response)
    (hw : nativeWidth videoStream = none) (hh : nativeHeight videoStream = none) :
    videoX videoStream e = Num.nan ∧ videoY videoStream e = Num.nan
      ∧ requests (videoStreamClick videoStream e network).1 =
        [⟨"/select_object", "POST", [("Content-Type", "application/json")],
          some "\x7b\"x\":null,\"y\":null\x7d"⟩] := by
  have hx : videoX videoStream e = Num.nan := by
    unfold videoX scaleX
    rw [hw]
    exact congrArg Math_round (Num.mul_nan_right _)
  have hy : videoY videoStream e = Num.nan := by
    unfold videoY scaleY
    rw [hh]
    exact congrArg Math_round (Num.mul_nan_right _)
  refine ⟨hx, hy, ?_⟩
  rw [requests_videoStreamClick]
  simp only [selectRequest, hx, hy]
  decide

/-- The amended C4 at a concrete click on an element without the attributes. -/
theorem C4_absent_metadata_witness :
    videoX bareVideo ⟨100, 50⟩ = Num.nan ∧ videoY bareVideo ⟨100, 50⟩ = Num.nan
      ∧ requests (videoStreamClick bareVideo ⟨100, 50⟩ offline).1 =
        [⟨"/select_object", "POST", [("Content-Type", "application/json")],
          some "\x7b\"x\":null,\"y\":null\x7d"⟩] :=
  C4_absent_metadata_sends_null bareVideo ⟨100, 50⟩ offline rfl rfl

/-- C5, as stated, fails: `data-video-width="1e308"` and `data-video-height="1e308"` are
numeric and the displayed size 1×1 is positive, but for the click at local position
`(10, 10)` the products overflow to `Infinity`, so `videoX` and `videoY` are not integers
and the body carries `null` for `x` and `y`. -/
theorem C5_counterexample :
    0 < hugeVideo.clientWidth ∧ 0 < hugeVideo.clientHeight
      ∧ (∃ n : ℕ, ToNumber (nativeWidth hugeVideo) = Num.fin n)
      ∧ (∃ n : ℕ, ToNumber (nativeHeight hugeVideo) = Num.fin n)
      ∧ clickX hugeVideo ⟨10, 10⟩ = Num.fin 10 ∧ clickY hugeVideo ⟨10, 10⟩ = Num.fin 10
      ∧ videoX hugeVideo ⟨10, 10⟩ = Num.posInf ∧ videoY hugeVideo ⟨10, 10⟩ = Num.posInf
      ∧ (¬ ∃ m : ℤ, videoX hugeVideo ⟨10, 10⟩ = Num.fin m)
      ∧ (selectRequest hugeVideo ⟨10, 10⟩).body = some "\x7b\"x\":null,\"y\":null\x7d" := by
  have hx : videoX hugeVideo ⟨10, 10⟩ = Num.posInf := by decide!
  have hy : videoY hugeVideo ⟨10, 10⟩ = Num.posInf := by decide!
  refine ⟨by decide, by decide, ⟨_, hugeVideo_native.1⟩, ⟨_, hugeVideo_native.2⟩, by decide!,
    by decide!, hx, hy, ?_, ?_⟩
  · rw [hx]
    rintro ⟨m, hm⟩
    exact Num.noConfusion hm
  · simp only [selectRequest, hx, hy]
    decide

/-- C5, amended: every click on the video surface issues exactly one request: method
POST, URL `/select_object`, header `Content-Type: application/json`, and a body that is
the JSON serialisation of an object with exactly the keys `x` and `y`, holding `videoX` and
`videoY`; for every click with numeric native metadata and displayed width and height
`> 0` whose products `clickX * scaleX` and `clickY * scaleY` are finite (no overflow), the
values of `x` and `y` are integers. -/
theorem C5_click_issues_one_select_request (videoStream : Element) (e : MouseEvent)
    (network : Request → Settled Response) :
    requests (videoStreamClick videoStream e network).1 =
        [⟨"/select_object", "POST", [("Content-Type", "application/json")],
          some ("\x7b\"x\":" ++ SerializeJSONProperty (videoX videoStream e) ++ ",\"y\":"
            ++ SerializeJSONProperty (videoY videoStream e) ++ "\x7d")⟩]
      ∧ ∀ Nw Nh px py : ℚ, 0 < videoStream.clientWidth → 0 < videoStream.clientHeight →
          ToNumber (nativeWidth videoStream) = Num.fin Nw →
          ToNumber (nativeHeight videoStream) = Num.fin Nh →
          Num.mul (clickX videoStream e) (scaleX videoStream) = Num.fin px →
          Num.mul (clickY videoStream e) (scaleY videoStream) = Num.fin py →
          ∃ m n : ℤ, videoX videoStream e = Num.fin m ∧ videoY videoStream e = Num.fin n
            ∧ SerializeJSONProperty (videoX videoStream e) = Number_toString m
            ∧ SerializeJSONProperty (videoY videoStream e) = Number_toString n := by
  refine ⟨requests_videoStreamClick _ _ _, ?_⟩
  intro Nw Nh px py _ _ _ _ hpx hpy
  refine ⟨⌊px + 1 / 2⌋, ⌊py + 1 / 2⌋, ?_, ?_, ?_, ?_⟩
  · unfold videoX
    rw [hpx]
    rfl
  · unfold videoY
    rw [hpy]
    rfl
  · unfold videoX
    rw [hpx]
    rfl
  · unfold videoY
    rw [hpy]
    rfl

/-- The amended C5 at the scenario of the specification: native 1920×1080 displayed
640×360 at offset `(8, 8)`, click at client position `(328, 188)`, local `(320, 180)`. -/
theorem C5_click_issues_one_select_request_witness :
    requests (videoStreamClick hdVideo ⟨328, 188⟩ offline).1 =
        [⟨"/select_object", "POST", [("Content-Type", "application/json")],
          some "\x7b\"x\":960,\"y\":540\x7d"⟩]
      ∧ ∃ m n : ℤ, videoX hdVideo ⟨328, 188⟩ = Num.fin m
          ∧ videoY hdVideo ⟨328, 188⟩ = Num.fin n := by
  have h := C5_click_issues_one_select_request hdVideo ⟨328, 188⟩ offline
  refine ⟨?_, ?_⟩
  · rw [h.1]
    decide!
  · obtain ⟨m, n, hm, hn, _⟩ :=
      h.2 1920 1080 960 540 (by decide) (by decide) (by decide!) (by decide!) (by decide!)
        (by decide!)
    exact ⟨m, n, hm, hn⟩

theorem onDOMContentLoaded_both {document : Document} {videoStream resetButton : Element}
    (hv : document.getElementById "video-stream" = some videoStream)
    (hr : document.getElementById "reset-button" = some resetButton) :
    onDOMContentLoaded document =
      .ok [⟨"video-stream", "click", .videoStreamClick⟩,
        ⟨"reset-button", "click", .resetButtonClick⟩] := by
  have hid := getElementById_id hv
  have hid' := getElementById_id hr
  simp [onDOMContentLoaded, hv, hr, addEventListener, hid, hid', Except.bind]

/-- C6, as stated, fails. On a page with a `reset-button` element and no `video-stream`
element the script installs no listener, and a click on the reset control issues no
request. On a page whose reset control lies inside the `video-stream` element the click
reaches both listeners, and a request to `/select_object` follows the one to
`/reset_selection`. -/
theorem C6_counterexample :
    Document.getElementById ⟨[resetControl]⟩ "reset-button" = some resetControl
      ∧ requests (dispatchClick ⟨[resetControl]⟩ resetControl ⟨10, 410⟩ answering) = []
      ∧ Document.getElementById ⟨[hdVideo, innerResetControl]⟩ "reset-button"
          = some innerResetControl
      ∧ requests (dispatchClick ⟨[hdVideo, innerResetControl]⟩ innerResetControl ⟨18, 18⟩
            answering)
          = [⟨"/reset_selection", "POST", [], none⟩,
              ⟨"/select_object", "POST", [("Content-Type", "application/json")],
                some "\x7b\"x\":30,\"y\":30\x7d"⟩] := by
  refine ⟨rfl, by decide, rfl, by decide!⟩

/-- C6, amended: on every page that has a `video-stream` element and whose reset control
(the element with id `reset-button`) lies neither inside the `video-stream` element nor
inside another element with id `reset-button`, every click on the reset control issues
exactly one request, a POST to `/reset_selection` with no body and no headers; the request
is the same whatever the click coordinates and the element metrics are, and no request
goes to `/select_object`. -/
theorem C6_reset_click_issues_one_bodyless_post (document : Document)
    (resetButton : Element) (e : MouseEvent) (network : Request → Settled Response)
    (hv : document.getElementById "video-stream" ≠ none)
    (hr : document.getElementById "reset-button" = some resetButton)
    (hvs : "video-stream" ∉ resetButton.ancestors)
    (hrb : "reset-button" ∉ resetButton.ancestors) :
    requests (dispatchClick document resetButton e network) =
        [⟨"/reset_selection", "POST", [], none⟩]
      ∧ ∀ r ∈ requests (dispatchClick document resetButton e network),
          r.url ≠ "/select_object" ∧ r.body = none := by
  obtain ⟨videoStream, hv'⟩ := Option.ne_none_iff_exists'.mp hv
  have hid := getElementById_id hr
  have hrest : ∀ l : List String, "video-stream" ∉ l → "reset-button" ∉ l →
      (l.flatMap fun id =>
        (([⟨"video-stream", "click", .videoStreamClick⟩,
            ⟨"reset-button", "click", .resetButtonClick⟩] : List Registration).filter
          fun r => r.target = id && r.type = "click").flatMap fun r =>
            (r.listener.run videoStream e network).1) = [] := by
    intro l
    induction l with
    | nil => intros; rfl
    | cons a t ih =>
      intro h1 h2
      rw [List.mem_cons, not_or] at h1 h2
      have e1 : ¬ "video-stream" = a := h1.1
      have e2 : ¬ "reset-button" = a := h2.1
      rw [List.flatMap_cons, ih h1.2 h2.2, List.append_nil]
      simp [List.filter, e1, e2]
  have h : requests (dispatchClick document resetButton e network) =
      [⟨"/reset_selection", "POST", [], none⟩] := by
    unfold dispatchClick
    rw [onDOMContentLoaded_both hv' hr, hv']
    simp only [hid, List.flatMap_cons]
    rw [hrest _ hvs hrb]
    simp [List.filter, Listener.run, requests_resetButtonClick, resetRequest]
  refine ⟨h, ?_⟩
  intro r hr'
  rw [h, List.mem_singleton] at hr'
  subst hr'
  exact ⟨by decide, rfl⟩

/-- The amended C6 on a page with the video element and the reset button side by side. -/
theorem C6_reset_click_issues_one_bodyless_post_witness :
    requests (dispatchClick ⟨[hdVideo, resetControl]⟩ resetControl ⟨10, 410⟩ garbled) =
      [⟨"/reset_selection", "POST", [], none⟩] :=
  (C6_reset_click_issues_one_bodyless_post ⟨[hdVideo, resetControl]⟩ resetControl ⟨10, 410⟩
    garbled (by simp [Document.getElementById, hdVideo]) rfl (by simp [resetControl])
    (by simp [resetControl])).1

/-- C7: initialisation installs listeners as a function of which elements exist and
never raises: without a `video-stream` element no listener is installed (whether or not
a `reset-button` element exists); with `video-stream` and without `reset-button` exactly
the video click listener is installed; with both, exactly the video click listener and
the reset click listener. -/
theorem C7_listeners_installed_by_presence (document : Document) :
    (document.getElementById "video-stream" = none →
        onDOMContentLoaded document = .ok [])
      ∧ (document.getElementById "video-stream" ≠ none →
          document.getElementById "reset-button" = none →
          onDOMContentLoaded document = .ok [⟨"video-stream", "click", .videoStreamClick⟩])
      ∧ (document.getElementById "video-stream" ≠ none →
          document.getElementById "reset-button" ≠ none →
          onDOMContentLoaded document =
            .ok [⟨"video-stream", "click", .videoStreamClick⟩,
              ⟨"reset-button", "click", .resetButtonClick⟩])
      ∧ ∃ installed, onDOMContentLoaded document = .ok installed := by
  cases hv : document.getElementById "video-stream" with
  | none =>
    have h : onDOMContentLoaded document = .ok [] := by
      simp [onDOMContentLoaded, hv]
    exact ⟨fun _ => h, fun c => absurd rfl c, fun c => absurd rfl c, ⟨_, h⟩⟩
  | some vs =>
    have hid := getElementById_id hv
    cases hr : document.getElementById "reset-button" with
    | none =>
      have h : onDOMContentLoaded document =
          .ok [⟨"video-stream", "click", .videoStreamClick⟩] := by
        simp [onDOMContentLoaded, hv, hr, addEventListener, hid, Except.bind]
      exact ⟨fun c => by simp at c, fun _ _ => h, fun _ c => absurd rfl c, ⟨_, h⟩⟩
    | some rb =>
      have hid' := getElementById_id hr
      have h : onDOMContentLoaded document =
          .ok [⟨"video-stream", "click", .videoStreamClick⟩,
            ⟨"reset-button", "click", .resetButtonClick⟩] := by
        simp [onDOMContentLoaded, hv, hr, addEventListener, hid, hid', Except.bind]
      exact ⟨fun c => by simp at c, fun _ c => by simp at c, fun _ _ => h, ⟨_, h⟩⟩

/-- C7 at concrete documents: a page with only the reset button, with only the video
element, and with both. -/
theorem C7_listeners_installed_by_presence_witness :
    onDOMContentLoaded ⟨[resetControl]⟩ = .ok []
      ∧ onDOMContentLoaded ⟨[hdVideo]⟩ = .ok [⟨"video-stream", "click", .videoStreamClick⟩]
      ∧ onDOMContentLoaded ⟨[hdVideo, resetControl]⟩ =
          .ok [⟨"video-stream", "click", .videoStreamClick⟩,
            ⟨"reset-button", "click", .resetButtonClick⟩] :=
  ⟨(C7_listeners_installed_by_presence ⟨[resetControl]⟩).1 rfl,
    (C7_listeners_installed_by_presence ⟨[hdVideo]⟩).2.1
      (by simp [Document.getElementById, hdVideo]) rfl,
    (C7_listeners_installed_by_presence ⟨[hdVideo, resetControl]⟩).2.2.1
      (by simp [Document.getElementById, hdVideo])
      (by simp [Document.getElementById, hdVideo, resetControl])⟩

/-- C8: for the select and the reset listener alike, with `fetch` and `response.json()`
as results that may fail: when both succeed the parsed JSON is logged once; when the
fetch fails or the parse fails the error is logged once; in each case the listener
performs exactly one request and one log entry and nothing else, and the last promise of
the chain is fulfilled, so no exception leaves the listener. -/
theorem C8_success_logs_data_failure_logs_error (videoStream : Element) (e : MouseEvent)
    (network : Request → Settled Response) :
    (∀ response data, network (selectRequest videoStream e) = .fulfilled response →
        response.json = .fulfilled data →
        videoStreamClick videoStream e network =
          ([.fetch (selectRequest videoStream e),
            .consoleLog "Server response from click:" data], .fulfilled ()))
      ∧ (∀ reason, network (selectRequest videoStream e) = .rejected reason →
        videoStreamClick videoStream e network =
          ([.fetch (selectRequest videoStream e), .consoleError "Error:" reason],
            .fulfilled ()))
      ∧ (∀ response reason, network (selectRequest videoStream e) = .fulfilled response →
        response.json = .rejected reason →
        videoStreamClick videoStream e network =
          ([.fetch (selectRequest videoStream e), .consoleError "Error:" reason],
            .fulfilled ()))
      ∧ (∀ response data, network resetRequest = .fulfilled response →
        response.json = .fulfilled data →
        resetButtonClick network =
          ([.fetch resetRequest, .consoleLog "Reset response:" data], .fulfilled ()))
      ∧ (∀ reason, network resetRequest = .rejected reason →
        resetButtonClick network =
          ([.fetch resetRequest, .consoleError "Error:" reason], .fulfilled ()))
      ∧ (∀ response reason, network resetRequest = .fulfilled response →
        response.json = .rejected reason →
        resetButtonClick network =
          ([.fetch resetRequest, .consoleError "Error:" reason], .fulfilled ())) := by
  refine ⟨?_, ?_, ?_, ?_, ?_, ?_⟩
  · intro response data h hj
    simp [videoStreamClick, fetch, Async.andThen, Async.catch, console_log, h, hj]
  · intro reason h
    simp [videoStreamClick, fetch, Async.andThen, Async.catch, console_error, h]
  · intro response reason h hj
    simp [videoStreamClick, fetch, Async.andThen, Async.catch, console_error, h, hj]
  · intro response data h hj
    simp [resetButtonClick, fetch, Async.andThen, Async.catch, console_log, h, hj]
  · intro reason h
    simp [resetButtonClick, fetch, Async.andThen, Async.catch, console_error, h]
  · intro response reason h hj
    simp [resetButtonClick, fetch, Async.andThen, Async.catch, console_error, h, hj]

/-- C8 at concrete networks: one that answers every request with `\x7b"ok":true\x7d`, one
that fails every request, and one whose answers are not JSON. -/
theorem C8_success_logs_data_failure_logs_error_witness :
    resetButtonClick answering =
        ([.fetch resetRequest, .consoleLog "Reset response:" (.object [("ok", .bool true)])],
          .fulfilled ())
      ∧ resetButtonClick offline =
        ([.fetch resetRequest, .consoleError "Error:" ⟨"TypeError: Failed to fetch"⟩],
          .fulfilled ())
      ∧ videoStreamClick hdVideo ⟨328, 188⟩ garbled =
        ([.fetch (selectRequest hdVideo ⟨328, 188⟩),
          .consoleError "Error:" ⟨"SyntaxError: Unexpected token"⟩], .fulfilled ()) :=
  ⟨(C8_success_logs_data_failure_logs_error hdVideo ⟨328, 188⟩ answering).2.2.2.1 _ _ rfl rfl,
    (C8_success_logs_data_failure_logs_error hdVideo ⟨328, 188⟩ offline).2.2.2.2.1 _ rfl,
    (C8_success_logs_data_failure_logs_error hdVideo ⟨328, 188⟩ garbled).2.2.1 _ _ rfl rfl⟩

/-! ## Error of the binary64 product -/

theorem ulp_le (x : ℚ) (hx : x ≠ 0) :
    ulp x ≤ (2 : ℚ) ^ (-52 : ℤ) * |x| + (2 : ℚ) ^ (-1074 : ℤ) := by
  have hpos : (0 : ℚ) < (2 : ℚ) ^ (-52 : ℤ) * |x| := by positivity
  have hpos' : (0 : ℚ) < (2 : ℚ) ^ (-1074 : ℤ) := by positivity
  by_cases h : -1022 ≤ ilog2 x
  · obtain ⟨h1, _⟩ := ilog2_spec x hx
    have : ulp x ≤ (2 : ℚ) ^ (-52 : ℤ) * |x| := by
      unfold ulp
      rw [max_eq_left h, sub_eq_add_neg, zpow_add₀ (by norm_num : (2 : ℚ) ≠ 0), mul_comm]
      exact mul_le_mul_of_nonneg_left h1 (by positivity)
    linarith
  · have : ulp x = (2 : ℚ) ^ (-1074 : ℤ) := by
      unfold ulp
      rw [max_eq_right (by omega)]
      norm_num
    linarith

/-- The error of one rounding: half a unit in the last place. -/
theorem rnd_error (x : ℚ) :
    |rnd x - x| ≤ (2 : ℚ) ^ (-53 : ℤ) * |x| + (2 : ℚ) ^ (-1075 : ℤ) := by
  by_cases hx : x = 0
  · subst hx
    rw [rnd_zero]
    simp
    positivity
  · have h1 := rnd_sub_le x
    have h2 := ulp_le x hx
    have e1 : (2 : ℚ) ^ (-53 : ℤ) = (2 : ℚ) ^ (-52 : ℤ) / 2 := by
      rw [show (-53 : ℤ) = -52 + -1 by norm_num, zpow_add₀ (by norm_num : (2 : ℚ) ≠ 0)]
      norm_num
    have e2 : (2 : ℚ) ^ (-1075 : ℤ) = (2 : ℚ) ^ (-1074 : ℤ) / 2 := by
      rw [show (-1075 : ℤ) = -1074 + -1 by norm_num, zpow_add₀ (by norm_num : (2 : ℚ) ≠ 0)]
      norm_num
    have e3 : (2 : ℚ) ^ (-52 : ℤ) / 2 * |x| + (2 : ℚ) ^ (-1074 : ℤ) / 2
        = ((2 : ℚ) ^ (-52 : ℤ) * |x| + (2 : ℚ) ^ (-1074 : ℤ)) / 2 := by ring
    rw [e1, e2, e3]
    exact h1.trans (div_le_div_of_nonneg_right h2 (by norm_num))

/-- What `Num.mul (fin c) (Num.div (fin N) (fin D))` is when it is finite. -/
theorem product_of_finite {c N p : ℚ} {D : ℕ} (hD : 0 < D)
    (hp : Num.mul (Num.fin c) (Num.div (Num.fin N) (Num.fin D)) = Num.fin p) :
    roundToDouble (N / D) = Num.fin (rnd (N / D)) ∧ p = rnd (c * rnd (N / D)) := by
  have hD' : (D : ℚ) ≠ 0 := by exact_mod_cast hD.ne'
  have hdiv : Num.div (Num.fin N) (Num.fin D) = roundToDouble (N / D) := by
    show (if (D : ℚ) = 0 then _ else _) = _
    rw [if_neg hD']
  rw [hdiv] at hp
  cases hs : roundToDouble (N / D) with
  | nan =>
    rw [hs] at hp
    exact Num.noConfusion hp
  | posInf =>
    rw [hs] at hp
    exfalso
    simp only [Num.mul, infWithSign] at hp
    split_ifs at hp
  | negInf =>
    rw [hs] at hp
    exfalso
    simp only [Num.mul, infWithSign] at hp
    split_ifs at hp
  | fin s =>
    have e := rnd_of_roundToDouble hs
    subst e
    rw [hs] at hp
    exact ⟨rfl, rnd_of_roundToDouble hp⟩

/-- Distance between the binary64 product `cx * (N / D)` and the exact scaled position. -/
theorem product_error (c q : ℚ) :
    |rnd (c * rnd q) - c * q|
      ≤ (2 : ℚ) ^ (-51 : ℤ) * |c * q| + (2 : ℚ) ^ (-1074 : ℤ) * (|c| + 1) := by
  have h1 := rnd_error q
  have h2 := rnd_error (c * rnd q)
  have hs : |rnd q| ≤ |q| + ((2 : ℚ) ^ (-53 : ℤ) * |q| + (2 : ℚ) ^ (-1075 : ℤ)) := by
    have := abs_sub_abs_le_abs_sub (rnd q) q
    linarith
  have hc := abs_nonneg c
  have hq := abs_nonneg q
  have tri : |rnd (c * rnd q) - c * q|
      ≤ |rnd (c * rnd q) - c * rnd q| + |c| * |rnd q - q| := by
    have : rnd (c * rnd q) - c * q = (rnd (c * rnd q) - c * rnd q) + c * (rnd q - q) := by
      ring
    rw [this]
    calc |rnd (c * rnd q) - c * rnd q + c * (rnd q - q)|
        ≤ |rnd (c * rnd q) - c * rnd q| + |c * (rnd q - q)| := abs_add _ _
      _ = _ := by rw [abs_mul]
  rw [abs_mul] at h2
  rw [abs_mul]
  have u53 : (2 : ℚ) ^ (-53 : ℤ) = 1 / 9007199254740992 := by norm_num [zpow_neg]
  have u51 : (2 : ℚ) ^ (-51 : ℤ) = 1 / 2251799813685248 := by norm_num [zpow_neg]
  have e75 : (2 : ℚ) ^ (-1075 : ℤ) = (2 : ℚ) ^ (-1074 : ℤ) / 2 := by
    rw [show (-1075 : ℤ) = -1074 + -1 by norm_num, zpow_add₀ (by norm_num : (2 : ℚ) ≠ 0)]
    norm_num
  have hη : (0 : ℚ) < (2 : ℚ) ^ (-1074 : ℤ) := by positivity
  rw [u53, e75] at h1 h2 hs
  rw [u51]
  generalize (2 : ℚ) ^ (-1074 : ℤ) = η at *
  have m1 : |c| * |rnd q - q| ≤ |c| * (1 / 9007199254740992 * |q| + η / 2) :=
    mul_le_mul_of_nonneg_left h1 hc
  have m2 : |c| * |rnd q| ≤ |c| * (|q| + (1 / 9007199254740992 * |q| + η / 2)) :=
    mul_le_mul_of_nonneg_left hs hc
  have m3 : 0 ≤ |c| * |q| := mul_nonneg hc hq
  have m4 : 0 ≤ |c| * η := mul_nonneg hc hη.le
  nlinarith [m1, m2, m3, m4, tri, h2]

/-! ## The binary64 grid -/

theorem ilog2_unique {x : ℚ} {e : ℤ} (h1 : (2 : ℚ) ^ e ≤ |x|) (h2 : |x| < (2 : ℚ) ^ (e + 1)) :
    ilog2 x = e := by
  have hx : x ≠ 0 := by
    intro h
    rw [h, abs_zero] at h1
    have : (0 : ℚ) < (2 : ℚ) ^ e := by positivity
    linarith
  obtain ⟨a1, a2⟩ := ilog2_spec x hx
  have b1 : (2 : ℚ) ^ e < (2 : ℚ) ^ (ilog2 x + 1) := lt_of_le_of_lt h1 a2
  have b2 : (2 : ℚ) ^ ilog2 x < (2 : ℚ) ^ (e + 1) := lt_of_le_of_lt a1 h2
  rw [zpow_lt_zpow_iff_right₀ (by norm_num : (1 : ℚ) < 2)] at b1 b2
  omega

/-- A multiple of the grid spacing of its own binade is left unchanged by rounding. -/
theorem rnd_of_grid {y : ℚ} {E k : ℤ} (hy : y = (2 : ℚ) ^ (E - 52) * k)
    (hE : max (ilog2 y) (-1022) = E) : rnd y = y := by
  have hu : ulp y = (2 : ℚ) ^ (E - 52) := by
    unfold ulp
    rw [hE]
  have hpos : (0 : ℚ) < (2 : ℚ) ^ (E - 52) := by positivity
  unfold rnd
  rw [hu]
  have : y / (2 : ℚ) ^ (E - 52) = (k : ℚ) := by
    rw [hy]
    field_simp
  rw [this, rne_intCast, hy]

theorem rnd_idem_of_pos {x : ℚ} (hx : 0 < x) : rnd (rnd x) = rnd x := by
  have hu := ulp_pos x
  have hEge : -1022 ≤ max (ilog2 x) (-1022) := le_max_right _ _
  have htop := rnd_le_binade_top hx
  have hnn := rnd_nonneg hx.le
  have hgrid : rnd x = (2 : ℚ) ^ (max (ilog2 x) (-1022) - 52) * (rne (x / ulp x) : ℤ) := rfl
  rcases hnn.lt_or_eq with hpos | h0
  · rcases htop.lt_or_eq with hlt | heq
    · -- strictly inside the binade
      refine rnd_of_grid hgrid ?_
      obtain ⟨a1, a2⟩ := ilog2_spec (rnd x) hpos.ne'
      rw [abs_of_pos hpos] at a1 a2
      have b : (2 : ℚ) ^ ilog2 (rnd x) < (2 : ℚ) ^ (max (ilog2 x) (-1022) + 1) := by linarith
      rw [zpow_lt_zpow_iff_right₀ (by norm_num : (1 : ℚ) < 2)] at b
      rcases hEge.lt_or_eq with hgt | heq
      · have c := binade_bottom_le_rnd hx hgt
        have d : (2 : ℚ) ^ (max (ilog2 x) (-1022)) < (2 : ℚ) ^ (ilog2 (rnd x) + 1) := by
          linarith
        rw [zpow_lt_zpow_iff_right₀ (by norm_num : (1 : ℚ) < 2)] at d
        rw [max_eq_left (by omega)]
        omega
      · rw [← heq] at b ⊢
        exact max_eq_right (by omega)
    · -- the top of the binade
      have hy : rnd x = (2 : ℚ) ^ ((max (ilog2 x) (-1022) + 1) - 52) * (((2 : ℤ) ^ 52 : ℤ) : ℚ) := by
        rw [heq]
        conv_lhs => rw [show max (ilog2 x) (-1022) + 1
          = ((max (ilog2 x) (-1022) + 1) - 52) + 52 by ring,
          zpow_add₀ (by norm_num : (2 : ℚ) ≠ 0)]
        norm_num
      refine rnd_of_grid hy ?_
      have : ilog2 (rnd x) = max (ilog2 x) (-1022) + 1 := by
        apply ilog2_unique
        · rw [abs_of_pos hpos, heq]
        · rw [abs_of_pos hpos, heq]
          exact zpow_lt_zpow_right₀ (by norm_num) (by omega)
      rw [this]
      exact max_eq_left (by omega)
  · rw [← h0, rnd_zero]

theorem rne_neg (y : ℚ) : rne (-y) = -rne y := by
  have h1 := Int.floor_le y
  have h2 := Int.lt_floor_add_one y
  by_cases hint : (⌊y⌋ : ℚ) = y
  · have : rne y = ⌊y⌋ := by
      rw [← hint, rne_intCast, Int.floor_intCast]
    rw [this]
    have : -y = ((-⌊y⌋ : ℤ) : ℚ) := by
      push_cast
      rw [hint]
    rw [this, rne_intCast]
  · have hlt : (⌊y⌋ : ℚ) < y := lt_of_le_of_ne h1 hint
    have hf : ⌊-y⌋ = -⌊y⌋ - 1 := by
      rw [Int.floor_eq_iff]
      push_cast
      constructor <;> linarith
    unfold rne
    simp only [hf]
    push_cast
    split_ifs <;> first | omega | (exfalso; linarith)

theorem ilog2_neg (x : ℚ) : ilog2 (-x) = ilog2 x := by
  unfold ilog2
  simp only [Rat.neg_num, Rat.neg_den, Int.natAbs_neg, abs_neg]

theorem rnd_neg (x : ℚ) : rnd (-x) = -rnd x := by
  have hu : ulp (-x) = ulp x := by
    unfold ulp
    rw [ilog2_neg]
  unfold rnd
  rw [hu, neg_div, rne_neg]
  push_cast
  ring

theorem rnd_idem (x : ℚ) : rnd (rnd x) = rnd x := by
  rcases lt_trichotomy x 0 with h | h | h
  · have := rnd_idem_of_pos (x := -x) (by linarith)
    rw [rnd_neg, rnd_neg] at this
    linarith
  · rw [h, rnd_zero, rnd_zero]
  · exact rnd_idem_of_pos h

theorem abs_rnd (x : ℚ) : |rnd x| = rnd |x| := by
  rcases le_or_lt 0 x with h | h
  · rw [abs_of_nonneg h, abs_of_nonneg (rnd_nonneg h)]
  · have hn : 0 ≤ rnd (-x) := rnd_nonneg (by linarith)
    rw [abs_of_neg h]
    rw [rnd_neg] at hn ⊢
    exact abs_of_nonpos (by linarith)

theorem abs_rnd_le {y z : ℚ} (h : |y| ≤ |z|) : |rnd y| ≤ |rnd z| := by
  rw [abs_rnd, abs_rnd]
  exact rnd_mono_of_nonneg (abs_nonneg y) h

/-- A finite Number is a point of the binary64 grid below `2 ^ 1024`. -/
theorem roundToDouble_fin {x q : ℚ} (h : roundToDouble x = Num.fin q) :
    rnd q = q ∧ |q| < (2 : ℚ) ^ (1024 : ℕ) := by
  unfold roundToDouble at h
  simp only at h
  split_ifs at h with a b
  have e := Num.fin.inj h
  rw [← e]
  refine ⟨rnd_idem x, ?_⟩
  rw [abs_lt]
  constructor <;> linarith
/-! ## The values of `ToNumber` -/

theorem isDouble_roundToDouble (x : ℚ) : IsDouble (roundToDouble x) :=
  fun _ h => roundToDouble_fin h

theorem isDouble_nan : IsDouble Num.nan := fun _ h => Num.noConfusion h

theorem isDouble_posInf : IsDouble Num.posInf := fun _ h => Num.noConfusion h

theorem isDouble_negInf : IsDouble Num.negInf := fun _ h => Num.noConfusion h

theorem isDouble_zero : IsDouble (Num.fin 0) := by
  intro q h
  rw [← Num.fin.inj h, rnd_zero]
  exact ⟨rfl, by norm_num⟩

theorem isDouble_strDecimalLiteral (cs : List Char) : IsDouble (strDecimalLiteral cs) := by
  have key : ∀ (neg : Bool) (ds : List Char),
      IsDouble (if ds = "Infinity".toList then (if neg then Num.negInf else Num.posInf)
        else
          match unsignedDecimalValue ds with
          | some v => roundToDouble (if neg then -v else v)
          | none => Num.nan) := by
    intro neg ds
    split_ifs
    all_goals first
      | exact isDouble_negInf
      | exact isDouble_posInf
      | (split <;> first | exact isDouble_roundToDouble _ | exact isDouble_nan)
  unfold strDecimalLiteral
  split <;> exact key _ _

theorem isDouble_nonDecimalIntegerLiteral {cs : List Char} {v : Num}
    (h : nonDecimalIntegerLiteral cs = some v) : IsDouble v := by
  have key : ∀ (radix : ℕ) (ds : List Char) (w : Num),
      (if ds = [] then some Num.nan
        else
          match digitsValue radix ds 0 with
          | some n => some (roundToDouble n)
          | none => some Num.nan) = some w → IsDouble w := by
    intro radix ds w hw
    split_ifs at hw
    · rw [← Option.some.inj hw]
      exact isDouble_nan
    · split at hw
      · rw [← Option.some.inj hw]
        exact isDouble_roundToDouble _
      · rw [← Option.some.inj hw]
        exact isDouble_nan
  unfold nonDecimalIntegerLiteral at h
  split at h
  all_goals first | exact key _ _ _ h | exact Option.noConfusion h

theorem isDouble_StringToNumber (s : String) : IsDouble (StringToNumber s) := by
  unfold StringToNumber
  simp only
  split_ifs
  · exact isDouble_zero
  · split
    · rename_i v hv
      exact isDouble_nonDecimalIntegerLiteral hv
    · exact isDouble_strDecimalLiteral _

theorem isDouble_ToNumber (value : Option String) : IsDouble (ToNumber value) := by
  cases value with
  | none => exact isDouble_nan
  | some s => exact isDouble_StringToNumber s

/-- With a finite native extent and a displayed extent `> 0` the scale factor is finite. -/
theorem scale_of_finite {value : Option String} {N : ℚ} {D : ℕ} (hD : 0 < D)
    (hN : ToNumber value = Num.fin N) :
    Num.div (Num.fin N) (Num.fin D) = Num.fin (rnd (N / D))
      ∧ |rnd (N / D)| ≤ |N| := by
  obtain ⟨hid, hlt⟩ := isDouble_ToNumber value N hN
  have hDq : (1 : ℚ) ≤ D := by exact_mod_cast hD
  have hD' : (D : ℚ) ≠ 0 := by linarith
  have hle : |N / D| ≤ |N| := by
    rw [abs_div, abs_of_pos (by linarith : (0 : ℚ) < D)]
    exact div_le_self (abs_nonneg N) hDq
  have hb : |rnd (N / D)| ≤ |N| := by
    have := abs_rnd_le hle
    rw [hid] at this
    exact this
  have hb' := abs_lt.mp (lt_of_le_of_lt hb hlt)
  refine ⟨?_, hb⟩
  show (if (D : ℚ) = 0 then _ else _) = _
  rw [if_neg hD']
  exact roundToDouble_of_lt hb'.1 hb'.2
/-- C1, as stated, fails: native 1920×1080 displayed 640×496, click at local position
`(320, 93)`. The exact scaled position is `(960, 202.5)`, which rounds to `(960, 203)`,
but in binary64 `1080 / 496` rounds down and `93 * (1080 / 496)` is just below `202.5`, so
the handler transmits `(960, 202)`. -/
theorem C1_counterexample :
    0 < tallVideo.clientWidth ∧ 0 < tallVideo.clientHeight
      ∧ ToNumber (nativeWidth tallVideo) = Num.fin 1920
      ∧ ToNumber (nativeHeight tallVideo) = Num.fin 1080
      ∧ clickX tallVideo ⟨328, 101⟩ = Num.fin 320 ∧ clickY tallVideo ⟨328, 101⟩ = Num.fin 93
      ∧ ⌊(320 : ℚ) * 1920 / 640 + 1 / 2⌋ = 960 ∧ ⌊(93 : ℚ) * 1080 / 496 + 1 / 2⌋ = 203
      ∧ videoX tallVideo ⟨328, 101⟩ = Num.fin 960 ∧ videoY tallVideo ⟨328, 101⟩ = Num.fin 202
      ∧ (selectRequest tallVideo ⟨328, 101⟩).body = some "\x7b\"x\":960,\"y\":202\x7d"
      ∧ (selectRequest tallVideo ⟨328, 101⟩).body
          ≠ some (JSON_stringify (Num.fin (⌊(320 : ℚ) * 1920 / 640 + 1 / 2⌋ : ℤ))
              (Num.fin (⌊(93 : ℚ) * 1080 / 496 + 1 / 2⌋ : ℤ))) := by
  refine ⟨by decide, by decide, by decide!, by decide!, by decide!, by decide!, by decide!,
    by decide!, by decide!, by decide!, by decide!, by decide!⟩

/-- One axis of the rescale: the value `Math.round(c * (N / D))` computed in binary64, and
its agreement with the exact rounded position away from the half-integers. -/
theorem rescale_axis {value : Option String} {N c : ℚ} {D : ℕ} (hD : 0 < D)
    (hN : ToNumber value = Num.fin N) :
    Math_round (Num.mul (Num.fin c) (Num.div (Num.fin N) (Num.fin D)))
        = Math_round (roundToDouble (c * rnd (N / D)))
      ∧ (|c * N / D - (⌊c * N / D + 1 / 2⌋ : ℤ)| + (2 : ℚ) ^ (-51 : ℤ) * |c * N / D|
            + (2 : ℚ) ^ (-1074 : ℤ) * (|c| + 1) < 1 / 2 →
          Math_round (Num.mul (Num.fin c) (Num.div (Num.fin N) (Num.fin D)))
            = Num.fin (⌊c * N / D + 1 / 2⌋ : ℤ)) := by
  have hs := (scale_of_finite hD hN).1
  have h1 : Math_round (Num.mul (Num.fin c) (Num.div (Num.fin N) (Num.fin D)))
      = Math_round (roundToDouble (c * rnd (N / D))) := by
    rw [hs]
    rfl
  refine ⟨h1, fun hclose => ?_⟩
  rw [h1]
  have herr := product_error c (N / D)
  rw [← mul_div_assoc] at herr
  have u51 : (2 : ℚ) ^ (-51 : ℤ) = 1 / 2251799813685248 := by norm_num [zpow_neg]
  have hη : (0 : ℚ) < (2 : ℚ) ^ (-1074 : ℤ) * (|c| + 1) := by positivity
  have ht := abs_nonneg (c * N / D)
  have hm := abs_nonneg (c * N / D - (⌊c * N / D + 1 / 2⌋ : ℤ))
  rw [u51] at herr hclose
  generalize (2 : ℚ) ^ (-1074 : ℤ) * (|c| + 1) = η at *
  generalize hpdef : rnd (c * rnd (N / D)) = p at herr
  have hclose' : |c * N / D - (⌊c * N / D + 1 / 2⌋ : ℤ)|
      < 1 / 2 - (1 / 2251799813685248 * |c * N / D| + η) := by linarith
  have hp : |p| < (2 : ℚ) ^ (1024 : ℕ) := by
    have h2 : |p| ≤ |p - c * N / D| + |c * N / D| := by
      have := abs_add (p - c * N / D) (c * N / D)
      rwa [sub_add_cancel] at this
    have h3 : |c * N / D| < 1125899906842624 := by linarith
    have h4 : (1125899906842625 : ℚ) < (2 : ℚ) ^ (1024 : ℕ) := by norm_num
    linarith
  have hp' := abs_lt.mp hp
  have hfin : roundToDouble (c * rnd (N / D)) = Num.fin p := by
    have := roundToDouble_of_lt (x := c * rnd (N / D)) (by rw [hpdef]; linarith [hp'.1])
      (by rw [hpdef]; exact hp'.2)
    rwa [hpdef] at this
  rw [hfin]
  show Num.fin ((⌊p + 1 / 2⌋ : ℤ) : ℚ) = _
  have hfloor : ⌊p + 1 / 2⌋ = ⌊c * N / D + 1 / 2⌋ := by
    rw [Int.floor_eq_iff]
    rw [abs_le] at herr
    rw [abs_lt] at hclose'
    constructor <;> linarith [herr.1, herr.2, hclose'.1, hclose'.2]
  rw [hfloor]

/-- C1, amended: every click issues one POST to `/select_object` whose body is the JSON
text of `(videoX, videoY)`. For every displayed width `D.w > 0`, numeric native width
`N.w` and local position `cx`, `videoX` is `Math.round(cx * (N.w / D.w))` with the quotient
and the product each rounded to binary64; it is `round(cx * N.w / D.w)` whenever the exact
scaled position `t = cx * N.w / D.w` stays away from the half-integers by more than the
rounding error, `|t - round(t)| + 2 ^ (-51) * |t| + 2 ^ (-1074) * (|cx| + 1) < 1 / 2`.
Likewise for `videoY` with `D.h`, `N.h` and `cy`. -/
theorem C1_click_transmits_rounded_scaled_position (videoStream : Element) (e : MouseEvent)
    (network : Request → Settled Response) :
    requests (videoStreamClick videoStream e network).1 =
        [⟨"/select_object", "POST", [("Content-Type", "application/json")],
          some (JSON_stringify (videoX videoStream e) (videoY videoStream e))⟩]
      ∧ (∀ Nw cx : ℚ, 0 < videoStream.clientWidth →
          ToNumber (nativeWidth videoStream) = Num.fin Nw →
          clickX videoStream e = Num.fin cx →
          videoX videoStream e
              = Math_round (roundToDouble (cx * rnd (Nw / videoStream.clientWidth)))
            ∧ (|cx * Nw / videoStream.clientWidth
                  - (⌊cx * Nw / videoStream.clientWidth + 1 / 2⌋ : ℤ)|
                + (2 : ℚ) ^ (-51 : ℤ) * |cx * Nw / videoStream.clientWidth|
                + (2 : ℚ) ^ (-1074 : ℤ) * (|cx| + 1) < 1 / 2 →
              videoX videoStream e
                = Num.fin (⌊cx * Nw / videoStream.clientWidth + 1 / 2⌋ : ℤ)))
      ∧ (∀ Nh cy : ℚ, 0 < videoStream.clientHeight →
          ToNumber (nativeHeight videoStream) = Num.fin Nh →
          clickY videoStream e = Num.fin cy →
          videoY videoStream e
              = Math_round (roundToDouble (cy * rnd (Nh / videoStream.clientHeight)))
            ∧ (|cy * Nh / videoStream.clientHeight
                  - (⌊cy * Nh / videoStream.clientHeight + 1 / 2⌋ : ℤ)|
                + (2 : ℚ) ^ (-51 : ℤ) * |cy * Nh / videoStream.clientHeight|
                + (2 : ℚ) ^ (-1074 : ℤ) * (|cy| + 1) < 1 / 2 →
              videoY videoStream e
                = Num.fin (⌊cy * Nh / videoStream.clientHeight + 1 / 2⌋ : ℤ))) := by
  refine ⟨requests_videoStreamClick _ _ _, ?_, ?_⟩
  · intro Nw cx hD hN hc
    have hv : videoX videoStream e = Math_round (Num.mul (Num.fin cx)
        (Num.div (Num.fin Nw) (Num.fin videoStream.clientWidth))) := by
      rw [← hc, ← hN]
      rfl
    rw [hv]
    exact rescale_axis hD hN
  · intro Nh cy hD hN hc
    have hv : videoY videoStream e = Math_round (Num.mul (Num.fin cy)
        (Num.div (Num.fin Nh) (Num.fin videoStream.clientHeight))) := by
      rw [← hc, ← hN]
      rfl
    rw [hv]
    exact rescale_axis hD hN

/-- The amended C1 at two clicks. The scenario of the specification: displayed 640×360,
native 1920×1080, local position `(320, 180)`, body `\x7b"x":960,"y":540\x7d`. A scale
factor that is not a binary64 value: displayed 800×450, native 1920×1080, local position
`(100, 50)`, coordinate `(240, 120)`. -/
theorem C1_click_transmits_rounded_scaled_position_witness :
    requests (videoStreamClick hdVideo ⟨328, 188⟩ answering).1 =
        [⟨"/select_object", "POST", [("Content-Type", "application/json")],
          some "\x7b\"x\":960,\"y\":540\x7d"⟩]
      ∧ videoX hdVideo ⟨328, 188⟩ = Num.fin 960 ∧ videoY hdVideo ⟨328, 188⟩ = Num.fin 540
      ∧ videoX wsvgaVideo ⟨108, 58⟩ = Num.fin 240
      ∧ videoY wsvgaVideo ⟨108, 58⟩ = Num.fin 120 := by
  have h := C1_click_transmits_rounded_scaled_position hdVideo ⟨328, 188⟩ answering
  have g := C1_click_transmits_rounded_scaled_position wsvgaVideo ⟨108, 58⟩ answering
  have hx := (h.2.1 1920 320 (by decide) (by decide!) (by decide!)).2 (by decide!)
  have hy := (h.2.2 1080 180 (by decide) (by decide!) (by decide!)).2 (by decide!)
  have gx := (g.2.1 1920 100 (by decide) (by decide!) (by decide!)).2 (by decide!)
  have gy := (g.2.2 1080 50 (by decide) (by decide!) (by decide!)).2 (by decide!)
  refine ⟨?_, ?_, ?_, ?_, ?_⟩
  · rw [h.1, hx, hy]
    decide!
  · rw [hx]
    decide!
  · rw [hy]
    decide!
  · rw [gx]
    decide!
  · rw [gy]
    decide!
/-- `Math.round` of the finite binary64 product: an integer within `1 / 2` of the product,
the larger one on a tie, and within the rounding error of the exact scaled position. -/
theorem rounded_product_spec {c N p : ℚ} {D : ℕ} (hD : 0 < D)
    (hp : Num.mul (Num.fin c) (Num.div (Num.fin N) (Num.fin D)) = Num.fin p) :
    ∃ m : ℤ, Math_round (Num.mul (Num.fin c) (Num.div (Num.fin N) (Num.fin D))) = Num.fin m
      ∧ |(m : ℚ) - p| ≤ 1 / 2
      ∧ (∀ k : ℤ, p = k + 1 / 2 → m = k + 1)
      ∧ |p - c * N / D|
          ≤ (2 : ℚ) ^ (-51 : ℤ) * |c * N / D| + (2 : ℚ) ^ (-1074 : ℤ) * (|c| + 1)
      ∧ |(m : ℚ) - c * N / D|
          ≤ 1 / 2 + (2 : ℚ) ^ (-51 : ℤ) * |c * N / D| + (2 : ℚ) ^ (-1074 : ℤ) * (|c| + 1) := by
  have hprod := (product_of_finite hD hp).2
  have herr : |p - c * N / D|
      ≤ (2 : ℚ) ^ (-51 : ℤ) * |c * N / D| + (2 : ℚ) ^ (-1074 : ℤ) * (|c| + 1) := by
    have := product_error c (N / D)
    rw [← hprod, ← mul_div_assoc] at this
    exact this
  have hf1 := Int.floor_le (p + 1 / 2)
  have hf2 := Int.lt_floor_add_one (p + 1 / 2)
  have hm : |((⌊p + 1 / 2⌋ : ℤ) : ℚ) - p| ≤ 1 / 2 := by
    rw [abs_le]
    constructor <;> linarith
  refine ⟨⌊p + 1 / 2⌋, by rw [hp]; rfl, hm, ?_, herr, ?_⟩
  · intro k hk
    rw [hk, show (k : ℚ) + 1 / 2 + 1 / 2 = ((k + 1 : ℤ) : ℚ) by push_cast; ring]
    exact Int.floor_intCast _
  · have tri : |((⌊p + 1 / 2⌋ : ℤ) : ℚ) - c * N / D|
        ≤ |((⌊p + 1 / 2⌋ : ℤ) : ℚ) - p| + |p - c * N / D| := by
      have : ((⌊p + 1 / 2⌋ : ℤ) : ℚ) - c * N / D
          = (((⌊p + 1 / 2⌋ : ℤ) : ℚ) - p) + (p - c * N / D) := by ring
      rw [this]
      exact abs_add _ _
    linarith

/-- C9, as stated, fails. Tie: native width 352 displayed 960 wide, click at local
`x = 75`; the scaled position `75 * 352 / 960 = 27.5` lies exactly halfway between 27 and
28, but the handler yields 27, not the larger 28. Bound: native width 1920 displayed 641
wide, click at local `x = 2255318250894131 / 2 ^ 52`; the handler yields 2, more than
`1 / 2` away from the scaled position. -/
theorem C9_counterexample :
    0 < cifVideo.clientWidth ∧ ToNumber (nativeWidth cifVideo) = Num.fin 352
      ∧ clickX cifVideo ⟨83, 8⟩ = Num.fin 75
      ∧ (75 : ℚ) * 352 / 960 = 27 + 1 / 2
      ∧ videoX cifVideo ⟨83, 8⟩ = Num.fin 27
      ∧ videoX cifVideo ⟨83, 8⟩ ≠ Num.fin 28
      ∧ 0 < oddVideo.clientWidth ∧ ToNumber (nativeWidth oddVideo) = Num.fin 1920
      ∧ clickX oddVideo ⟨2255318250894131 / 4503599627370496, 0⟩
          = Num.fin (2255318250894131 / 4503599627370496)
      ∧ videoX oddVideo ⟨2255318250894131 / 4503599627370496, 0⟩ = Num.fin 2
      ∧ ¬ |(2 : ℚ) - 2255318250894131 / 4503599627370496 * 1920 / 641| ≤ 1 / 2 := by
  refine ⟨by decide, by decide!, by decide!, by norm_num, by decide!, by decide!, by decide,
    by decide!, by decide!, by decide!, by decide!⟩

/-- C9, amended, for each axis on its own: for every displayed width `D.w > 0`, numeric
native width `N.w` and local click position `cx` for which the binary64 product
`px = clickX * scaleX` is finite, `videoX` is an integer with `|videoX - px| ≤ 1 / 2`, the
larger one when `px` lies exactly halfway between two integers, and `px` differs from the
exact scaled position `cx * N.w / D.w` by at most
`2 ^ (-51) * |cx * N.w / D.w| + 2 ^ (-1074) * (|cx| + 1)`, so that
`|videoX - cx * N.w / D.w| ≤ 1 / 2 + 2 ^ (-51) * |cx * N.w / D.w| + 2 ^ (-1074) * (|cx| + 1)`;
likewise for `videoY` with `D.h`, `N.h` and `cy`. Neither axis asks anything of the other. -/
theorem C9_coordinate_is_nearest_integer (videoStream : Element) (e : MouseEvent) :
    (∀ Nw cx px : ℚ, 0 < videoStream.clientWidth →
      ToNumber (nativeWidth videoStream) = Num.fin Nw →
      clickX videoStream e = Num.fin cx →
      Num.mul (clickX videoStream e) (scaleX videoStream) = Num.fin px →
      ∃ m : ℤ, videoX videoStream e = Num.fin m
        ∧ |(m : ℚ) - px| ≤ 1 / 2
        ∧ (∀ k : ℤ, px = k + 1 / 2 → m = k + 1)
        ∧ |px - cx * Nw / videoStream.clientWidth|
            ≤ (2 : ℚ) ^ (-51 : ℤ) * |cx * Nw / videoStream.clientWidth|
              + (2 : ℚ) ^ (-1074 : ℤ) * (|cx| + 1)
        ∧ |(m : ℚ) - cx * Nw / videoStream.clientWidth|
            ≤ 1 / 2 + (2 : ℚ) ^ (-51 : ℤ) * |cx * Nw / videoStream.clientWidth|
              + (2 : ℚ) ^ (-1074 : ℤ) * (|cx| + 1))
    ∧ (∀ Nh cy py : ℚ, 0 < videoStream.clientHeight →
      ToNumber (nativeHeight videoStream) = Num.fin Nh →
      clickY videoStream e = Num.fin cy →
      Num.mul (clickY videoStream e) (scaleY videoStream) = Num.fin py →
      ∃ n : ℤ, videoY videoStream e = Num.fin n
        ∧ |(n : ℚ) - py| ≤ 1 / 2
        ∧ (∀ k : ℤ, py = k + 1 / 2 → n = k + 1)
        ∧ |py - cy * Nh / videoStream.clientHeight|
            ≤ (2 : ℚ) ^ (-51 : ℤ) * |cy * Nh / videoStream.clientHeight|
              + (2 : ℚ) ^ (-1074 : ℤ) * (|cy| + 1)
        ∧ |(n : ℚ) - cy * Nh / videoStream.clientHeight|
            ≤ 1 / 2 + (2 : ℚ) ^ (-51 : ℤ) * |cy * Nh / videoStream.clientHeight|
              + (2 : ℚ) ^ (-1074 : ℤ) * (|cy| + 1)) := by
  constructor
  · intro Nw cx px hDw hNw hcx hpx
    have h : Num.mul (Num.fin cx) (Num.div (Num.fin Nw) (Num.fin videoStream.clientWidth))
        = Num.fin px := by
      rw [← hcx, ← hNw]
      exact hpx
    obtain ⟨m, hm, rest⟩ := rounded_product_spec hDw h
    refine ⟨m, ?_, rest⟩
    rw [← hm, ← hcx, ← hNw]
    rfl
  · intro Nh cy py hDh hNh hcy hpy
    have h : Num.mul (Num.fin cy) (Num.div (Num.fin Nh) (Num.fin videoStream.clientHeight))
        = Num.fin py := by
      rw [← hcy, ← hNh]
      exact hpy
    obtain ⟨n, hn, rest⟩ := rounded_product_spec hDh h
    refine ⟨n, ?_, rest⟩
    rw [← hn, ← hcy, ← hNh]
    rfl

/-- The amended C9 at concrete clicks. Native 1920×1080 displayed 640×496, local position
`(320, 93)`: the vertical product is `7124835347988479 / 2 ^ 45`, just below `202.5`, and
`videoY` is an integer within `1 / 2` of it. An element with only `data-video-width` set,
native width 1920 displayed 640 wide, local `x = 320`: the horizontal product is `960`
and `videoX` is an integer within `1 / 2` of it, while `videoY` is `NaN`. -/
theorem C9_coordinate_is_nearest_integer_witness :
    (∃ n : ℤ, videoY tallVideo ⟨328, 101⟩ = Num.fin n
        ∧ |(n : ℚ) - 7124835347988479 / 35184372088832| ≤ 1 / 2)
      ∧ (∃ m : ℤ, videoX widthOnlyVideo ⟨328, 188⟩ = Num.fin m ∧ |(m : ℚ) - 960| ≤ 1 / 2)
      ∧ videoY widthOnlyVideo ⟨328, 188⟩ = Num.nan := by
  obtain ⟨n, hn, hn', _⟩ :=
    (C9_coordinate_is_nearest_integer tallVideo ⟨328, 101⟩).2 1080 93
      (7124835347988479 / 35184372088832) (by decide) (by decide!) (by decide!) (by decide!)
  obtain ⟨m, hm, hm', _⟩ :=
    (C9_coordinate_is_nearest_integer widthOnlyVideo ⟨328, 188⟩).1 1920 320 960
      (by decide) (by decide!) (by decide!) (by decide!)
  exact ⟨⟨n, hn, hn'⟩, ⟨m, hm, hm'⟩, by decide!⟩
/-! ## Range and order of the rescale -/

theorem rnd_rel_of_normal {x : ℚ} (hx : (2 : ℚ) ^ (-1022 : ℤ) ≤ x) :
    x * (1 - 1 / 9007199254740992) ≤ rnd x ∧ rnd x ≤ x * (1 + 1 / 9007199254740992) := by
  have hpos : 0 < x := lt_of_lt_of_le (by positivity) hx
  have habs : |x| = x := abs_of_pos hpos
  have h1 := rnd_sub_le x
  have h2 := ulp_le_of_normal (x := x) (by rw [habs]; exact hx)
  rw [habs] at h2
  have u52 : (2 : ℚ) ^ (-52 : ℤ) = 1 / 4503599627370496 := by norm_num [zpow_neg]
  rw [u52] at h2
  rw [abs_le] at h1
  constructor <;> linarith [h1.1, h1.2]

/-- Range and order of the rescale for a native extent below `2 ^ 51`. -/
theorem rescale_range {c1 c2 : ℚ} {N D : ℕ} (hD : 0 < D) (hD' : D < 2 ^ 31)
    (hN : N < 2 ^ 51) (h0 : 0 ≤ c1) (h12 : c1 ≤ c2) (h2 : c2 ≤ D) :
    ∃ v1 v2 : ℤ,
      Math_round (Num.mul (Num.fin c1) (Num.div (Num.fin N) (Num.fin D))) = Num.fin v1
        ∧ Math_round (Num.mul (Num.fin c2) (Num.div (Num.fin N) (Num.fin D))) = Num.fin v2
        ∧ 0 ≤ v1 ∧ v1 ≤ v2 ∧ v2 ≤ N := by
  have hDq : (0 : ℚ) < D := by exact_mod_cast hD
  have hDle : (D : ℚ) ≤ 2147483648 := by
    have : D ≤ 2147483648 := by omega
    exact_mod_cast this
  have hNle : (N : ℚ) ≤ 2251799813685247 := by
    have : N ≤ 2251799813685247 := by omega
    exact_mod_cast this
  have hN0 : (0 : ℚ) ≤ N := by positivity
  have hq0 : (0 : ℚ) ≤ (N : ℚ) / D := by positivity
  have hs0 : 0 ≤ rnd ((N : ℚ) / D) := rnd_nonneg hq0
  have tiny : (2 : ℚ) ^ (-1022 : ℤ) ≤ (2 : ℚ) ^ (-32 : ℤ) :=
    zpow_le_zpow_right₀ (by norm_num) (by norm_num)
  have t32 : (2 : ℚ) ^ (-32 : ℤ) = 1 / 4294967296 := by norm_num [zpow_neg]
  rw [t32] at tiny
  -- the product at the right edge stays below `N + 1 / 2`
  have hedge : rnd ((D : ℚ) * rnd ((N : ℚ) / D)) < N + 1 / 2
      ∧ rnd ((N : ℚ) / D) ≤ 2 * N := by
    rcases Nat.eq_zero_or_pos N with hz | hpos
    · subst hz
      simp [rnd_zero]
    · have hN1 : (1 : ℚ) ≤ N := by exact_mod_cast hpos
      have hqlow : (1 : ℚ) / 2147483648 ≤ (N : ℚ) / D := by
        rw [div_le_div_iff₀ (by norm_num) hDq]
        nlinarith
      obtain ⟨a1, a2⟩ := rnd_rel_of_normal (x := (N : ℚ) / D) (by linarith)
      have hDs : (D : ℚ) * ((N : ℚ) / D) = N := by field_simp
      have b1 : (N : ℚ) * (1 - 1 / 9007199254740992) ≤ D * rnd ((N : ℚ) / D) := by
        have := mul_le_mul_of_nonneg_left a1 hDq.le
        rw [← mul_assoc, hDs] at this
        exact this
      have b2 : (D : ℚ) * rnd ((N : ℚ) / D) ≤ N * (1 + 1 / 9007199254740992) := by
        have := mul_le_mul_of_nonneg_left a2 hDq.le
        rw [← mul_assoc, hDs] at this
        exact this
      obtain ⟨_, c2'⟩ := rnd_rel_of_normal (x := (D : ℚ) * rnd ((N : ℚ) / D)) (by linarith)
      have hqN : (N : ℚ) / D ≤ N := by
        rw [div_le_iff₀ hDq]
        have : (1 : ℚ) ≤ D := by exact_mod_cast hD
        nlinarith
      constructor
      · nlinarith
      · linarith
  obtain ⟨hedge, hsN⟩ := hedge
  have hDne : (D : ℚ) ≠ 0 := hDq.ne'
  have hbig : (2251799813685248 : ℚ) * 2 < (2 : ℚ) ^ (1024 : ℕ) := by norm_num
  have hdiv : Num.div (Num.fin N) (Num.fin D) = Num.fin (rnd ((N : ℚ) / D)) := by
    show (if (D : ℚ) = 0 then _ else _) = _
    rw [if_neg hDne]
    exact roundToDouble_of_lt (by linarith) (by linarith)
  -- every click inside the surface
  have key : ∀ c : ℚ, 0 ≤ c → c ≤ D →
      Num.mul (Num.fin c) (Num.div (Num.fin N) (Num.fin D))
          = Num.fin (rnd (c * rnd ((N : ℚ) / D)))
        ∧ 0 ≤ rnd (c * rnd ((N : ℚ) / D))
        ∧ rnd (c * rnd ((N : ℚ) / D)) < N + 1 / 2 := by
    intro c hc0 hcD
    have hnn : 0 ≤ rnd (c * rnd ((N : ℚ) / D)) := rnd_nonneg (mul_nonneg hc0 hs0)
    have hle : rnd (c * rnd ((N : ℚ) / D)) ≤ rnd ((D : ℚ) * rnd ((N : ℚ) / D)) :=
      rnd_mono_of_nonneg (mul_nonneg hc0 hs0) (mul_le_mul_of_nonneg_right hcD hs0)
    refine ⟨?_, hnn, lt_of_le_of_lt hle hedge⟩
    rw [hdiv]
    exact roundToDouble_of_lt (by linarith) (by linarith)
  obtain ⟨e1, n1, u1⟩ := key c1 h0 (h12.trans h2)
  obtain ⟨e2, n2, u2⟩ := key c2 (h0.trans h12) h2
  have hmono : rnd (c1 * rnd ((N : ℚ) / D)) ≤ rnd (c2 * rnd ((N : ℚ) / D)) :=
    rnd_mono_of_nonneg (mul_nonneg h0 hs0) (mul_le_mul_of_nonneg_right h12 hs0)
  refine ⟨⌊rnd (c1 * rnd ((N : ℚ) / D)) + 1 / 2⌋, ⌊rnd (c2 * rnd ((N : ℚ) / D)) + 1 / 2⌋,
    by rw [e1]; rfl, by rw [e2]; rfl, ?_, ?_, ?_⟩
  · exact Int.floor_nonneg.mpr (by linarith)
  · exact Int.floor_mono (by linarith)
  · have : ⌊rnd (c2 * rnd ((N : ℚ) / D)) + 1 / 2⌋ < (N : ℤ) + 1 := by
      rw [Int.floor_lt]
      push_cast
      linarith
    omega

/-- Order of the rescale along one axis, for every native extent: the values at two
non-negative positions are non-negative and in the order of the positions, and they are
integers when the product at the larger position does not overflow. -/
theorem rescale_order {value : Option String} {c1 c2 : ℚ} {N D : ℕ} (hD : 0 < D)
    (hN : ToNumber value = Num.fin N) (h0 : 0 ≤ c1) (h12 : c1 ≤ c2) :
    Num.le (Num.fin 0) (Math_round (Num.mul (Num.fin c1) (Num.div (Num.fin N) (Num.fin D))))
      ∧ Num.le (Math_round (Num.mul (Num.fin c1) (Num.div (Num.fin N) (Num.fin D))))
          (Math_round (Num.mul (Num.fin c2) (Num.div (Num.fin N) (Num.fin D))))
      ∧ ∀ p : ℚ, Num.mul (Num.fin c2) (Num.div (Num.fin N) (Num.fin D)) = Num.fin p →
          ∃ v1 v2 : ℤ,
            Math_round (Num.mul (Num.fin c1) (Num.div (Num.fin N) (Num.fin D))) = Num.fin v1
              ∧ Math_round (Num.mul (Num.fin c2) (Num.div (Num.fin N) (Num.fin D)))
                  = Num.fin v2
              ∧ 0 ≤ v1 ∧ v1 ≤ v2 := by
  have hs := (scale_of_finite (N := (N : ℚ)) hD hN).1
  have hs0 : 0 ≤ rnd ((N : ℚ) / D) := rnd_nonneg (by positivity)
  have hpos : (0 : ℚ) < (2 : ℚ) ^ (1024 : ℕ) := by positivity
  have val : ∀ c : ℚ, 0 ≤ c →
      Math_round (Num.mul (Num.fin c) (Num.div (Num.fin N) (Num.fin D)))
        = if (2 : ℚ) ^ (1024 : ℕ) ≤ rnd (c * rnd ((N : ℚ) / D)) then Num.posInf
          else Num.fin (⌊rnd (c * rnd ((N : ℚ) / D)) + 1 / 2⌋ : ℤ) := by
    intro c hc
    have hr : 0 ≤ rnd (c * rnd ((N : ℚ) / D)) := rnd_nonneg (mul_nonneg hc hs0)
    rw [hs]
    show Math_round (roundToDouble _) = _
    unfold roundToDouble
    simp only
    split_ifs with a b
    · rfl
    · exfalso; linarith
    · rfl
  have hr1 : 0 ≤ rnd (c1 * rnd ((N : ℚ) / D)) := rnd_nonneg (mul_nonneg h0 hs0)
  have hmono : rnd (c1 * rnd ((N : ℚ) / D)) ≤ rnd (c2 * rnd ((N : ℚ) / D)) :=
    rnd_mono_of_nonneg (mul_nonneg h0 hs0) (mul_le_mul_of_nonneg_right h12 hs0)
  have hf0 : (0 : ℤ) ≤ ⌊rnd (c1 * rnd ((N : ℚ) / D)) + 1 / 2⌋ :=
    Int.floor_nonneg.mpr (by linarith)
  have hf12 : ⌊rnd (c1 * rnd ((N : ℚ) / D)) + 1 / 2⌋ ≤ ⌊rnd (c2 * rnd ((N : ℚ) / D)) + 1 / 2⌋ :=
    Int.floor_mono (by linarith)
  rw [val c1 h0, val c2 (h0.trans h12)]
  refine ⟨?_, ?_, ?_⟩
  · split_ifs
    · trivial
    · show (0 : ℚ) ≤ _
      exact_mod_cast hf0
  · split_ifs with a b b
    · trivial
    · exfalso; linarith
    · trivial
    · show ((_ : ℤ) : ℚ) ≤ _
      exact_mod_cast hf12
  · intro p hp
    have hp' : ¬ (2 : ℚ) ^ (1024 : ℕ) ≤ rnd (c2 * rnd ((N : ℚ) / D)) := by
      intro hbig
      rw [hs] at hp
      have : roundToDouble (c2 * rnd ((N : ℚ) / D)) = Num.fin p := hp
      unfold roundToDouble at this
      simp only at this
      rw [if_pos hbig] at this
      exact Num.noConfusion this
    have hp1 : ¬ (2 : ℚ) ^ (1024 : ℕ) ≤ rnd (c1 * rnd ((N : ℚ) / D)) := by
      intro hbig
      exact hp' (hbig.trans hmono)
    rw [if_neg hp', if_neg hp1]
    exact ⟨_, _, rfl, rfl, hf0, hf12⟩
/-- C10, as stated, fails: native width `2 ^ 52 - 1 = 4503599627370495` displayed 25
wide, click at the right edge, local `x = 25`. In binary64 `25 * (N.w / 25)` is
`N.w + 1 / 2`, and the handler yields `N.w + 1`, outside `[0, N.w]`. -/
theorem C10_counterexample :
    0 < wideVideo.clientWidth
      ∧ ToNumber (nativeWidth wideVideo) = Num.fin (4503599627370495 : ℕ)
      ∧ clickX wideVideo ⟨25, 0⟩ = Num.fin 25
      ∧ (0 : ℚ) ≤ 25 ∧ (25 : ℚ) ≤ wideVideo.clientWidth
      ∧ videoX wideVideo ⟨25, 0⟩ = Num.fin 4503599627370496
      ∧ ¬ (4503599627370496 : ℚ) ≤ 4503599627370495 := by
  refine ⟨by decide, by decide!, by decide!, by norm_num, by decide!, by decide!,
    by norm_num⟩

/-- C10, amended, for each axis on its own. For every displayed width `D.w > 0`, every
non-negative integer native width `N.w` and local click positions
`0 ≤ cx1 ≤ cx2 ≤ D.w`: `0 <= videoX(cx1) <= videoX(cx2)` as Numbers (the mapping is
monotone non-decreasing and never negative), the two values are integers when the product
at `cx2` does not overflow, and when `N.w < 2 ^ 51` they are integers with
`0 ≤ videoX(cx1) ≤ videoX(cx2) ≤ N.w`. Likewise for `y` with `D.h` and `N.h`. -/
theorem C10_rescale_in_range_and_monotone (videoStream : Element) (e1 e2 : MouseEvent) :
    (∀ (Nw : ℕ) (cx1 cx2 : ℚ), 0 < videoStream.clientWidth →
      ToNumber (nativeWidth videoStream) = Num.fin Nw →
      clickX videoStream e1 = Num.fin cx1 → clickX videoStream e2 = Num.fin cx2 →
      0 ≤ cx1 → cx1 ≤ cx2 → cx2 ≤ videoStream.clientWidth →
      Num.le (Num.fin 0) (videoX videoStream e1)
        ∧ Num.le (videoX videoStream e1) (videoX videoStream e2)
        ∧ (∀ p : ℚ, Num.mul (clickX videoStream e2) (scaleX videoStream) = Num.fin p →
            ∃ v1 v2 : ℤ, videoX videoStream e1 = Num.fin v1
              ∧ videoX videoStream e2 = Num.fin v2 ∧ 0 ≤ v1 ∧ v1 ≤ v2)
        ∧ (Nw < 2 ^ 51 →
            ∃ v1 v2 : ℤ, videoX videoStream e1 = Num.fin v1
              ∧ videoX videoStream e2 = Num.fin v2 ∧ 0 ≤ v1 ∧ v1 ≤ v2 ∧ v2 ≤ Nw))
    ∧ (∀ (Nh : ℕ) (cy1 cy2 : ℚ), 0 < videoStream.clientHeight →
      ToNumber (nativeHeight videoStream) = Num.fin Nh →
      clickY videoStream e1 = Num.fin cy1 → clickY videoStream e2 = Num.fin cy2 →
      0 ≤ cy1 → cy1 ≤ cy2 → cy2 ≤ videoStream.clientHeight →
      Num.le (Num.fin 0) (videoY videoStream e1)
        ∧ Num.le (videoY videoStream e1) (videoY videoStream e2)
        ∧ (∀ p : ℚ, Num.mul (clickY videoStream e2) (scaleY videoStream) = Num.fin p →
            ∃ w1 w2 : ℤ, videoY videoStream e1 = Num.fin w1
              ∧ videoY videoStream e2 = Num.fin w2 ∧ 0 ≤ w1 ∧ w1 ≤ w2)
        ∧ (Nh < 2 ^ 51 →
            ∃ w1 w2 : ℤ, videoY videoStream e1 = Num.fin w1
              ∧ videoY videoStream e2 = Num.fin w2 ∧ 0 ≤ w1 ∧ w1 ≤ w2 ∧ w2 ≤ Nh)) := by
  constructor
  · intro Nw cx1 cx2 hD hN h1 h2 h0 h12 hcD
    have a1 : videoX videoStream e1 = Math_round (Num.mul (Num.fin cx1)
        (Num.div (Num.fin Nw) (Num.fin videoStream.clientWidth))) := by
      rw [← h1, ← hN]
      rfl
    have a2 : videoX videoStream e2 = Math_round (Num.mul (Num.fin cx2)
        (Num.div (Num.fin Nw) (Num.fin videoStream.clientWidth))) := by
      rw [← h2, ← hN]
      rfl
    have a3 : Num.mul (clickX videoStream e2) (scaleX videoStream) = Num.mul (Num.fin cx2)
        (Num.div (Num.fin Nw) (Num.fin videoStream.clientWidth)) := by
      rw [← h2, ← hN]
      rfl
    rw [a1, a2, a3]
    obtain ⟨b1, b2, b3⟩ := rescale_order hD hN h0 h12
    exact ⟨b1, b2, b3, fun hlt => rescale_range hD videoStream.clientWidth_lt hlt h0 h12 hcD⟩
  · intro Nh cy1 cy2 hD hN h1 h2 h0 h12 hcD
    have a1 : videoY videoStream e1 = Math_round (Num.mul (Num.fin cy1)
        (Num.div (Num.fin Nh) (Num.fin videoStream.clientHeight))) := by
      rw [← h1, ← hN]
      rfl
    have a2 : videoY videoStream e2 = Math_round (Num.mul (Num.fin cy2)
        (Num.div (Num.fin Nh) (Num.fin videoStream.clientHeight))) := by
      rw [← h2, ← hN]
      rfl
    have a3 : Num.mul (clickY videoStream e2) (scaleY videoStream) = Num.mul (Num.fin cy2)
        (Num.div (Num.fin Nh) (Num.fin videoStream.clientHeight)) := by
      rw [← h2, ← hN]
      rfl
    rw [a1, a2, a3]
    obtain ⟨b1, b2, b3⟩ := rescale_order hD hN h0 h12
    exact ⟨b1, b2, b3, fun hlt => rescale_range hD videoStream.clientHeight_lt hlt h0 h12 hcD⟩

/-- The amended C10 at concrete clicks. Native 1920×1080 displayed 640×496, local
positions `(320, 93)` and `(640, 496)`, the latter the bottom-right corner: both axes stay
inside the native frame. Native width `2 ^ 52 - 1` displayed 25 wide, local `x = 10` and
`x = 25`: the values are in order although the second one leaves the frame. -/
theorem C10_rescale_in_range_and_monotone_witness :
    (∃ v1 v2 : ℤ, videoX tallVideo ⟨328, 101⟩ = Num.fin v1
        ∧ videoX tallVideo ⟨648, 504⟩ = Num.fin v2 ∧ 0 ≤ v1 ∧ v1 ≤ v2 ∧ v2 ≤ (1920 : ℕ))
      ∧ (∃ w1 w2 : ℤ, videoY tallVideo ⟨328, 101⟩ = Num.fin w1
        ∧ videoY tallVideo ⟨648, 504⟩ = Num.fin w2 ∧ 0 ≤ w1 ∧ w1 ≤ w2 ∧ w2 ≤ (1080 : ℕ))
      ∧ Num.le (Num.fin 0) (videoX wideVideo ⟨10, 0⟩)
      ∧ Num.le (videoX wideVideo ⟨10, 0⟩) (videoX wideVideo ⟨25, 0⟩) := by
  have hx := (C10_rescale_in_range_and_monotone tallVideo ⟨328, 101⟩ ⟨648, 504⟩).1 1920 320
    640 (by decide) (by decide!) (by decide!) (by decide!) (by norm_num) (by norm_num)
    (by decide!)
  have hy := (C10_rescale_in_range_and_monotone tallVideo ⟨328, 101⟩ ⟨648, 504⟩).2 1080 93
    496 (by decide) (by decide!) (by decide!) (by decide!) (by norm_num) (by norm_num)
    (by decide!)
  have hw := (C10_rescale_in_range_and_monotone wideVideo ⟨10, 0⟩ ⟨25, 0⟩).1
    4503599627370495 10 25 (by decide) (by decide!) (by decide!) (by decide!) (by norm_num)
    (by norm_num) (by decide!)
  exact ⟨hx.2.2.2 (by norm_num), hy.2.2.2 (by norm_num), hw.1, hw.2.1⟩
end MainJs
